import Mathlib

set_option maxRecDepth 10000

-- `Rat.add`, `Rat.mul`, `Rat.sub`, `Rat.inv` are `@[irreducible]` in
-- Batteries, which blocks `decide`-style kernel evaluation of concrete
-- scenarios; restore the default reducibility for this file.
attribute [local semireducible] Rat.add Rat.mul Rat.sub Rat.inv

/-!
# Verification of the coinbase-exchange-analyzer order-book engine

A shallow embedding of `src/coinbase/order_book.py` (class `OrderBook`),
`src/coinbase/data_model.py` and the float formatter of
`src/coinbase/order_book_app.py`, together with proofs and refutations of
the specification claims about them.

Modelling conventions, derived from the source:

* Timestamps are natural numbers counting microseconds since the Unix epoch
  (Python parses `%Y-%m-%dT%H:%M:%S.%fZ` to microsecond precision).
* Python floats are modelled by `EFloat`: either a rational value or `nan`.
  Comparisons follow IEEE semantics (every comparison with `nan` is false,
  `!=` with `nan` is true); arithmetic propagates `nan`.  Rounding of binary
  doubles is idealised away: values are exact rationals.
* Prices and quantities carried by messages are modelled as exact rationals
  (the engine feeds them through `float(...)`).
* `pandas` structures are modelled as time-sorted association lists.
  `S[:t]` / `S[t:]` label slices select entries `≤ t` / `≥ t`;
  `S.iloc[:-1]` is `dropLast`.
* The three `resample` call sites are translated according to pandas
  semantics for tick frequencies with the default `origin="start_day"`;
  since the configured intervals (50 ms default, whole seconds in tests,
  6 s for the forecast grid) divide one day, the bin grid coincides with
  the epoch-aligned grid `{k·Δ}`:
  - `pd.Series([m], index=[t]).resample(Δ).bfill()` (upsample, default
    `closed="left"`) produces the single grid point `(floorTo Δ t, m)`;
  - `pd.concat([{t₀: v}, {t: m}]).resample(Δ, closed="right").ffill()`
    with `t₀` on-grid and `t₀ < t` reindexes on the grid points
    `t₀, t₀+Δ, …, ceilTo Δ t` and forward-fills, giving value `v` for
    ticks before `t` and `m` from `t` on;
  - `S.resample(Δf).mean()` (downsample) produces one row per bin
    `[L, L+Δf)` for `L` from `floorTo Δf first` to `floorTo Δf last`,
    whose value is the NaN-skipping mean of the entries in the bin.
  These translations were cross-checked against the window-mean arithmetic
  asserted by the repository's own test suite (`tests/order_book_test.py`).
* The opaque `pmdarima` model is a type parameter `μ` with an operations
  record `MOps` (fit / incremental update / predict); `auto_arima` may fail,
  hence `fit` returns `Except`.  The background retrain thread is modelled
  as a separate transition (`retrain_model`) that may be interleaved between
  messages; it is spawned by recording the detached copy of the training
  data in `pending_train` and holding `retrain_locked`.
* A Python exception escaping a modelled operation is represented by
  `Option`: `none` means the call raises.
-/

namespace OB

/-- A Python float: a rational value or NaN.  (`float("inf")` never arises
in the modelled code paths.) -/
inductive EFloat where
  | nan : EFloat
  | val : ℚ → EFloat
deriving DecidableEq

namespace EFloat

/-- `math.isnan` / `np.isnan`. -/
def isNaN : EFloat → Bool
  | nan => true
  | val _ => false

/-- Addition, propagating NaN. -/
def add : EFloat → EFloat → EFloat
  | val a, val b => val (a + b)
  | _, _ => nan

/-- Subtraction, propagating NaN. -/
def sub : EFloat → EFloat → EFloat
  | val a, val b => val (a - b)
  | _, _ => nan

/-- Halving (`x / 2`), propagating NaN. -/
def half : EFloat → EFloat
  | val a => val (a / 2)
  | nan => nan

/-- Absolute value, propagating NaN. -/
def abs : EFloat → EFloat
  | val a => val |a|
  | nan => nan

/-- Python `>`: false whenever either side is NaN. -/
def gt : EFloat → EFloat → Bool
  | val a, val b => decide (b < a)
  | _, _ => false

/-- Python `<`: false whenever either side is NaN. -/
def lt : EFloat → EFloat → Bool
  | val a, val b => decide (a < b)
  | _, _ => false

/-- Python `!=`: true whenever either side is NaN — in particular
`nan != nan` is `true`. -/
def pyNe : EFloat → EFloat → Bool
  | val a, val b => decide (a ≠ b)
  | _, _ => true

/-- NaN-skipping mean (`pandas` `mean` with default `skipna=True`): the mean
of the non-NaN entries, NaN if there are none. -/
def mean (l : List EFloat) : EFloat :=
  let xs := l.filterMap fun x => match x with | val q => some q | nan => none
  if xs.isEmpty then nan else val (xs.sum / xs.length)

end EFloat

/-! ## Data model (`data_model.py`) -/

/-- `Order` value object. -/
structure Order where
  price_level : EFloat
  quantity : EFloat
deriving DecidableEq

/-- `BidAskDiff` value object; `observed_at` is a timestamp in µs. -/
structure BidAskDiff where
  highest_bid_price_level : EFloat
  lowest_ask_price_level : EFloat
  observed_at : ℕ
deriving DecidableEq

/-- `BidAskDiff.diff = lowest_ask - highest_bid` (NaN-propagating). -/
def BidAskDiff.diff (d : BidAskDiff) : EFloat :=
  EFloat.sub d.lowest_ask_price_level d.highest_bid_price_level

/-! ## Price books (`SortedDict`)

A `SortedDict` is modelled as an association list sorted strictly by the
side's key order (`lambda x: -x` for bids, the natural order for asks).
-/

abbrev Book := List (ℚ × ℚ)

/-- `book[price] = quantity`: sorted upsert w.r.t. the strict key order `c`. -/
def bookInsert (c : ℚ → ℚ → Bool) (p q : ℚ) : Book → Book
  | [] => [(p, q)]
  | (k, v) :: rest =>
    if c p k then (p, q) :: (k, v) :: rest
    else if p = k then (p, q) :: rest
    else (k, v) :: bookInsert c p q rest

/-- `del book[price]` (keys are unique in a well-formed book, so removing
every occurrence is the same as removing the binding). -/
def bookErase (p : ℚ) (b : Book) : Book :=
  b.filter fun e => e.1 ≠ p

/-- `book.get(price)`: first binding of `p`. -/
def bookFind (p : ℚ) (b : Book) : Option ℚ :=
  (b.find? fun e => e.1 = p).map (·.2)

/-- Lines 328–333: `if quantity > 0: book[p] = q elif p in book: del book[p]`. -/
def bookUpsert (c : ℚ → ℚ → Bool) (p q : ℚ) (b : Book) : Book :=
  if 0 < q then bookInsert c p q b else bookErase p b

/-- Bid key order: `SortedDict(lambda x: -x)` sorts by descending price. -/
def bidKeyLt (a b : ℚ) : Bool := decide (b < a)

/-- Ask key order: default `SortedDict` sorts by ascending price. -/
def askKeyLt (a b : ℚ) : Bool := decide (a < b)

/-! ## Sample grid -/

/-- Largest grid point `≤ t` on the epoch-aligned grid of step `Δ`. -/
def floorTo (Δ t : ℕ) : ℕ := Δ * (t / Δ)

/-- Smallest grid point `≥ t` on the epoch-aligned grid of step `Δ`. -/
def ceilTo (Δ t : ℕ) : ℕ := Δ * ((t + Δ - 1) / Δ)

/-! ## Time series -/

/-- A `pd.Series` with datetime index: time-sorted list of (µs, value). -/
abbrev Series := List (ℕ × EFloat)

/-- `S[:t]` label slice (inclusive). -/
def sliceTo (t : ℕ) (S : Series) : Series :=
  S.filter fun e => decide (e.1 ≤ t)

/-- `S[a:]` label slice (inclusive). -/
def sliceFrom (a : ℕ) (S : Series) : Series :=
  S.filter fun e => decide (a ≤ e.1)

/-- `S[a:b]` label slice (inclusive on both ends). -/
def sliceBetween (a b : ℕ) (S : Series) : Series :=
  S.filter fun e => decide (a ≤ e.1) && decide (e.1 ≤ b)

/-- Lines 163–170: `historical = S[:t]`, dropping the final sample when its
timestamp equals `obs` (the update's arrival time). -/
def histSlice (t obs : ℕ) (S : Series) : Series :=
  let h := sliceTo t S
  match h.getLast? with
  | some e => if e.1 ≠ obs then h else h.dropLast
  | none => []

/-- The appended part of
`pd.concat([{t₀: v}, {t: m}]).resample(Δ, closed="right").ffill()[1:]`
for an on-grid `t₀ < t`: grid ticks `t₀+Δ, …, ceilTo Δ t`, carrying `v`
before `t` and `m` from `t` on. -/
def fillTicks (Δ t₀ : ℕ) (v : EFloat) (t : ℕ) (m : EFloat) : Series :=
  (List.range ((ceilTo Δ t - t₀) / Δ)).map fun k =>
    let T := t₀ + (k + 1) * Δ
    (T, if T < t then v else m)

/-- `S.resample(Δf).mean()` (downsampling aggregation): one row per bin
`[L, L+Δf)` from `floorTo Δf first` through `floorTo Δf last`, valued by the
NaN-skipping mean of the entries inside the bin. -/
def resampleMean (Δf : ℕ) (S : Series) : Series :=
  match S.head?, S.getLast? with
  | some a, some b =>
    let lo := floorTo Δf a.1
    let n := (floorTo Δf b.1 - lo) / Δf + 1
    (List.range n).map fun k =>
      let L := lo + k * Δf
      (L, EFloat.mean ((S.filter fun e => decide (L ≤ e.1) && decide (e.1 < L + Δf)).map (·.2)))
  | _, _ => []

/-! ## Forecast table -/

/-- One row of the `_forecast` DataFrame.  `used_in_training` is a bool
column that holds NaN (`none`) on rows created by the forecast join. -/
structure Row where
  mid_price : EFloat
  forecast_mid_price : EFloat
  forecast_error : EFloat
  used_in_training : Option Bool
deriving DecidableEq

/-- A fresh row as created by an outer join (all columns missing). -/
def emptyRow : Row := ⟨EFloat.nan, EFloat.nan, EFloat.nan, none⟩

/-- The `_forecast` DataFrame: time-sorted list of (µs, row). -/
abbrev Frame := List (ℕ × Row)

/-- `F[:t]` label slice. -/
def frameSliceTo (t : ℕ) (F : Frame) : Frame :=
  F.filter fun e => decide (e.1 ≤ t)

/-- `F[a:]` label slice. -/
def frameSliceFrom (a : ℕ) (F : Frame) : Frame :=
  F.filter fun e => decide (a ≤ e.1)

/-- `F.loc[:t]` where `t` may be `None` (an open bound selects everything). -/
def frameSliceToOpt (t : Option ℕ) (F : Frame) : Frame :=
  match t with
  | none => F
  | some t => frameSliceTo t F

/-- Sorted insert-or-modify at time `t` (the effect of an outer join with a
single new label followed by `.loc` column assignments). -/
def frameSet (t : ℕ) (f : Row → Row) : Frame → Frame
  | [] => [(t, f emptyRow)]
  | (k, r) :: rest =>
    if t < k then (t, f emptyRow) :: (k, r) :: rest
    else if t = k then (k, f r) :: rest
    else (k, r) :: frameSet t f rest

/-- Lines 210–213: outer-join the training increment and set its
`mid_price` and `used_in_training = False` cells. -/
def upsertTrain (F : Frame) (inc : Series) : Frame :=
  inc.foldl (fun F e =>
    frameSet e.1 (fun r => { r with mid_price := e.2, used_in_training := some false }) F) F

/-- The `mid_price` column of a frame. -/
def midCol (F : Frame) : Series :=
  F.map fun e => (e.1, e.2.mid_price)

/-! ## Engine constants (`order_book.py` module level, in µs) -/

/-- `pd.Timedelta(seconds=60)` in µs (`FORECAST_WINDOW_SEC`). -/
def forecastWindow : ℕ := 60000000

/-- `MID_PRICE_SEASONALITY_M`. -/
def seasonalityM : ℕ := 10

/-- `_forecast_sample_interval = FORECAST_WINDOW_SEC / MID_PRICE_SEASONALITY_M` (6 s). -/
def forecastSampleInterval : ℕ := 6000000

/-- `DEFAULT_AGGREGATION_WINDOWS_SEC = [60, 300, 900]`, in µs. -/
def aggregationWindows : List ℕ := [60000000, 300000000, 900000000]

/-- `_aggregation_windows[-1]` (15 min), in µs. -/
def maxAggregationWindow : ℕ := 900000000

/-! ## Engine state

All mutable attributes of an `OrderBook` instance.  `μ` is the opaque
`pmdarima` model type.  `pending_train` records the detached copy of the
training data handed to a spawned retrain thread that has not completed
yet (`none` when no retrain is in flight), and `retrain_locked` is
`_model_retrain_lock.locked()`. -/
structure EngineState (μ : Type) where
  bids : Book
  asks : Book
  last_update : ℕ
  mid_prices : Series
  forecast : Frame
  max_ask_bid_diff : BidAskDiff
  n_model_updates : ℕ
  n_observation_to_retrain_after : ℕ
  model_update_time : Option ℕ
  forecast_model : Option μ
  retrain_locked : Bool
  pending_train : Option Series
deriving DecidableEq

/-- Operations of the opaque seasonal model (`pmdarima`): `auto_arima` may
raise, `model.update` ingests new observations, `model.predict` produces
`n_periods` forecasts. -/
structure MOps (μ : Type) where
  fit : Series → Except String μ
  update : μ → List EFloat → μ
  predict : μ → ℕ → List EFloat

namespace OrderBook

variable {μ : Type}

/-- Lines 320–321: `return self._bids if side == 'buy' else self._asks`. -/
def get_book (s : EngineState μ) (side : String) : Book :=
  if side = "buy" then s.bids else s.asks

/-- The key order of the book selected by `side`. -/
def book_key_lt (side : String) : ℚ → ℚ → Bool :=
  if side = "buy" then bidKeyLt else askKeyLt

/-- Write back the book selected by `side`. -/
def set_book (s : EngineState μ) (side : String) (b : Book) : EngineState μ :=
  if side = "buy" then { s with bids := b } else { s with asks := b }

/-- Lines 328–333 (`__insert_record`). -/
def insert_record (s : EngineState μ) (side : String) (price_level quantity : ℚ) :
    EngineState μ :=
  set_book s side (bookUpsert (book_key_lt side) price_level quantity (get_book s side))

/-- Lines 323–326 (`__get_first_record`): `peekitem(0)` or `(nan, nan)`. -/
def get_first_record (s : EngineState μ) (side : String) : Order :=
  match (get_book s side).head? with
  | some (p, q) => ⟨EFloat.val p, EFloat.val q⟩
  | none => ⟨EFloat.nan, EFloat.nan⟩

/-- Lines 313–318 (`__calc_ask_bid_diff`). -/
def calc_ask_bid_diff (s : EngineState μ) : BidAskDiff :=
  ⟨(get_first_record s "buy").price_level,
   (get_first_record s "sell").price_level,
   s.last_update⟩

/-- The new `_mid_prices` series built by `__update_mid_prices` from the old
series `S`, slicing at `t = _last_update`, for an observation `(obs, m)`
(in `update`, `obs = t`). -/
def midSeriesNext (Δ t obs : ℕ) (m : EFloat) (S : Series) : Series :=
  let historical := histSlice t obs S
  match historical.getLast? with
  | none => [(floorTo Δ obs, m)]
  | some lastE => historical ++ fillTicks Δ lastE.1 lastE.2 obs m

/-- Lines 160–184 (`__update_mid_prices`), for sample interval `Δ`. -/
def update_mid_prices (Δ : ℕ) (s : EngineState μ) (current_diff : BidAskDiff) :
    EngineState μ :=
  let mid := EFloat.half (EFloat.add current_diff.highest_bid_price_level
    current_diff.lowest_ask_price_level)
  { s with mid_prices :=
      midSeriesNext Δ s.last_update current_diff.observed_at mid s.mid_prices }

/-- Lines 187–207: the training increment series.  `none` models the
`TypeError` raised by `None + Timedelta` when `_model_update_time` is unset
while the forecast table is nonempty. -/
def train_increment (s : EngineState μ) : Option Series :=
  if s.forecast.isEmpty then
    let resampled := resampleMean forecastSampleInterval s.mid_prices
    some (if resampled.length > 1 then resampled.dropLast else [])
  else
    match s.model_update_time with
    | none => none
    | some mutT =>
      let lo := mutT + forecastSampleInterval
      let hi := lo + forecastSampleInterval
      if (sliceFrom hi s.mid_prices).isEmpty then some []
      else some ((resampleMean forecastSampleInterval
        (sliceBetween lo hi s.mid_prices)).dropLast)

/-- Lines 186–215 (`__update_forecast_with_train_data`).  Returns the
updated state and the training increment. -/
def update_forecast_with_train_data (s : EngineState μ) :
    Option (EngineState μ × Series) :=
  (train_increment s).map fun inc =>
    ({ s with forecast := upsertTrain s.forecast inc }, inc)

/-- Lines 217–241 (`__update_model`).  A full retrain is spawned on a
background thread: here that records the detached training snapshot in
`pending_train` and acquires the lock; its completion is the separate
`retrain_model` transition. -/
def update_model (mops : MOps μ) (s : EngineState μ) : EngineState μ :=
  if s.retrain_locked = false ∧ ¬ s.forecast.isEmpty then
    let not_used := s.forecast.filter fun e => e.2.used_in_training = some false
    let s1 :=
      if s.n_model_updates ≥ s.n_observation_to_retrain_after then
        { s with retrain_locked := true,
                 pending_train :=
                   some (midCol (frameSliceToOpt s.model_update_time s.forecast)) }
      else
        match not_used.getLast? with
        | none => s
        | some lastE =>
          { s with model_update_time := some lastE.1,
                   n_model_updates := s.n_model_updates + not_used.length,
                   forecast_model :=
                     s.forecast_model.map fun mo =>
                       mops.update mo (not_used.map fun e => e.2.mid_price) }
    { s1 with forecast := s1.forecast.map fun e =>
        if e.2.used_in_training = some false
        then (e.1, { e.2 with used_in_training := some true }) else e }
  else s

/-- Lines 243–273 (`__retrain_model`), run on the background thread with the
detached `train_data` and the outcome of `auto_arima`.  `none` models the
`IndexError` from `train_data.index[-1]` in the `finally` block when the
snapshot is empty (in which case the lock is never released). -/
def retrain_model (s : EngineState μ) (train_data : Series)
    (result : Except String μ) : Option (EngineState μ) :=
  match train_data.getLast? with
  | none => none
  | some lastE =>
    match result with
    | .ok m =>
      some { s with forecast_model := some m, n_model_updates := 0,
                    model_update_time := some lastE.1,
                    retrain_locked := false, pending_train := none }
    | .error _ =>
      some { s with n_observation_to_retrain_after :=
                      s.n_observation_to_retrain_after + seasonalityM,
                    model_update_time := some lastE.1,
                    retrain_locked := false, pending_train := none }

/-- Lines 275–297 (`__calculate_forecast`).  `none` models the `TypeError`
from `pd.date_range(None, …)`; unreachable in practice because a model only
exists after a retrain, which always sets `_model_update_time`. -/
def calculate_forecast (mops : MOps μ) (new_intervals : List ℕ) (s : EngineState μ) :
    Option (EngineState μ) :=
  match s.forecast_model with
  | none => some s
  | some mo =>
    match s.model_update_time with
    | none => none
    | some mutT =>
      let n := forecastWindow / forecastSampleInterval
      let idx := (List.range n).map fun k => mutT + (k + 1) * forecastSampleInterval
      let preds := idx.zip (mops.predict mo n)
      let F1 := preds.foldl (fun F e =>
        frameSet e.1 (fun r => { r with forecast_mid_price := e.2 }) F) s.forecast
      let F2 := F1.map fun e =>
        if new_intervals.contains e.1 then
          let err := EFloat.abs (EFloat.sub e.2.forecast_mid_price e.2.mid_price)
          (e.1, { e.2 with forecast_error := err })
        else e
      some { s with forecast := F2 }

/-- Lines 299–307 (`__free_resources`), for sample interval `Δ`. -/
def free_resources (Δ : ℕ) (s : EngineState μ) : EngineState μ :=
  let s1 :=
    if s.mid_prices.isEmpty then s
    else
      let m := sliceFrom (s.last_update - maxAggregationWindow - Δ) s.mid_prices
      { s with mid_prices := m }
  if s1.forecast.isEmpty then s1
  else
    let f := frameSliceFrom (s1.last_update - maxAggregationWindow - forecastSampleInterval)
      s1.forecast
    { s1 with forecast := f }

/-- Lines 151–158 (`__update_data_structures`). -/
def update_data_structures (mops : MOps μ) (Δ : ℕ) (s : EngineState μ) :
    Option (EngineState μ × BidAskDiff) :=
  let order_diff := calc_ask_bid_diff s
  let s1 := update_mid_prices Δ s order_diff
  match update_forecast_with_train_data s1 with
  | none => none
  | some (s2, inc) =>
    let s3 := update_model mops s2
    match calculate_forecast mops (inc.map (·.1)) s3 with
    | none => none
    | some s4 => some (free_resources Δ s4, order_diff)

/-- A parsed `snapshot` message (time in µs; price/quantity as rationals). -/
structure SnapshotMsg where
  time : ℕ
  bids : List (ℚ × ℚ)
  asks : List (ℚ × ℚ)

/-- One entry of an `l2update`'s `changes`. -/
structure Change where
  side : String
  price_level : ℚ
  quantity : ℚ

/-- A parsed `l2update` message. -/
structure UpdateMsg where
  time : ℕ
  changes : List Change

/-- Lines 97–98: apply each change via `__insert_record`, in order. -/
def applyChanges (s : EngineState μ) (changes : List Change) : EngineState μ :=
  changes.foldl (fun s c => insert_record s c.side c.price_level c.quantity) s

/-- Lines 101–105: `new if new.diff > old.diff or isnan(old.diff) else old`. -/
def maxStep (old new : BidAskDiff) : BidAskDiff :=
  if EFloat.gt new.diff old.diff || EFloat.isNaN old.diff then new else old

/-- The `BidAskDiff` that `update` computes for message `msg` in state `s`
(best bid/ask after the changes are applied, observed at the message time). -/
def new_diff_of (s : EngineState μ) (msg : UpdateMsg) : BidAskDiff :=
  calc_ask_bid_diff (applyChanges { s with last_update := msg.time } msg.changes)

/-- The effect of a change list on a single book (those changes routed to it). -/
def applyToBook (c : ℚ → ℚ → Bool) (b : Book) (l : List Change) : Book :=
  l.foldl (fun b ch => bookUpsert c ch.price_level ch.quantity b) b

/-- The engine state right after `__init__` has filled both books from the
snapshot, before the update pipeline runs (the `max_ask_bid_diff` slot is a
placeholder: the attribute does not exist yet at this point in the source
and is assigned from the pipeline's result). -/
def snapState (snapshot : SnapshotMsg) : EngineState μ :=
  let s0 : EngineState μ :=
    { bids := [], asks := [], last_update := snapshot.time,
      mid_prices := [], forecast := [],
      max_ask_bid_diff := ⟨EFloat.nan, EFloat.nan, 0⟩,
      n_model_updates := 0,
      n_observation_to_retrain_after := seasonalityM * 2 + 1,
      model_update_time := none, forecast_model := none,
      retrain_locked := false, pending_train := none }
  let s1 := snapshot.bids.foldl
    (fun s pq => insert_record s "buy" pq.1 pq.2) s0
  snapshot.asks.foldl (fun s pq => insert_record s "sell" pq.1 pq.2) s1

/-- Lines 25–83 (`__init__`), for sample interval `Δ`. -/
def init (mops : MOps μ) (Δ : ℕ) (snapshot : SnapshotMsg) :
    Option (EngineState μ) :=
  match update_data_structures mops Δ (snapState snapshot) with
  | none => none
  | some (s3, order_diff) => some { s3 with max_ask_bid_diff := order_diff }

/-- Lines 94–109 (`update`), for sample interval `Δ`. -/
def update (mops : MOps μ) (Δ : ℕ) (s : EngineState μ) (msg : UpdateMsg) :
    Option (EngineState μ) :=
  let sa := applyChanges { s with last_update := msg.time } msg.changes
  match update_data_structures mops Δ sa with
  | none => none
  | some (sb, new_order_diff) =>
    some { sb with max_ask_bid_diff := maxStep s.max_ask_bid_diff new_order_diff }

/-- Lines 121–127 (`__calculate_window_means`): for each window, the
NaN-skipping mean of `series[end_time - window:]`. -/
def calculate_window_means (series : Series) (end_time : ℕ) : List (ℕ × EFloat) :=
  aggregationWindows.map fun w =>
    (w / 1000000, EFloat.mean ((sliceFrom (end_time - w) series).map (·.2)))

/-- Line 116–118 (`_forecast_mid_price` property). -/
def forecast_mid_price (s : EngineState μ) : EFloat :=
  match s.forecast.getLast? with
  | some e => e.2.forecast_mid_price
  | none => EFloat.nan

/-- The `OrderBookStats` value object. -/
structure OrderBookStats where
  current_highest_bid : Order
  current_lowest_ask : Order
  max_ask_bid_diff : BidAskDiff
  forecasted_mid_price : EFloat
  mid_prices : List (ℕ × EFloat)
  forecast_errors : List (ℕ × EFloat)
deriving DecidableEq

/-- Lines 120–149 (`get_stats`).  `none` models the `IndexError` from the
two unguarded `index[-1]` accesses (lines 129 and 136). -/
def get_stats (s : EngineState μ) : Option OrderBookStats :=
  match s.mid_prices.getLast? with
  | none => none
  | some lastE =>
    let mid_price_means := calculate_window_means s.mid_prices lastE.1
    let fem? : Option (List (ℕ × EFloat)) :=
      if s.forecast.isEmpty then
        some (aggregationWindows.map fun w => (w / 1000000, EFloat.nan))
      else
        match (frameSliceTo lastE.1 s.forecast).getLast? with
        | none => none
        | some lastK =>
          some (calculate_window_means
            ((frameSliceTo lastE.1 s.forecast).map fun e => (e.1, e.2.forecast_error))
            lastK.1)
    fem?.map fun fem =>
      ⟨get_first_record s "buy", get_first_record s "sell", s.max_ask_bid_diff,
        forecast_mid_price s, mid_price_means, fem⟩

end OrderBook

/-! ## Console float formatting (`order_book_app.py`, lines 62–63) -/

/-- Python `f"{q:.prec f}"` on a (finite) float value: fixed-point rendering
with `prec` fractional digits, round-half-to-even.  (The sign of a negative
zero result is not modelled.) -/
def ratToFixedString (q : ℚ) (prec : ℕ) : String :=
  let scaled : ℚ := q * (10 ^ prec : ℕ)
  let fl : ℤ := ⌊scaled⌋
  let frac : ℚ := scaled - fl
  let n : ℤ :=
    if 1 / 2 < frac then fl + 1
    else if frac < 1 / 2 then fl
    else if fl % 2 = 0 then fl else fl + 1
  let a := n.natAbs
  let fps := toString (a % 10 ^ prec)
  let pad := String.mk (List.replicate (prec - fps.length) '0')
  (if n < 0 then "-" else "") ++ toString (a / 10 ^ prec) ++ "." ++ pad ++ fps

/-- Python `f"{f:.prec f}"`: NaN is rendered `"nan"`. -/
def pyFormatFixed (f : EFloat) (prec : ℕ) : String :=
  match f with
  | .nan => "nan"
  | .val q => ratToFixedString q prec

/-- `__format_float_for_print`:
`f"{f:.{PRINT_FLOAT_ACCURACY}f}" if f != np.nan else "not yet available"`. -/
def format_float_for_print (f : EFloat) : String :=
  if EFloat.pyNe f EFloat.nan then pyFormatFixed f 8 else "not yet available"

/-! ## Well-formedness predicates -/

/-- Every stored entry has a positive quantity. -/
def BookPos (b : Book) : Prop := ∀ e ∈ b, 0 < e.2

/-- The book is strictly sorted by the key order `c`. -/
def BookSorted (c : ℚ → ℚ → Bool) (b : Book) : Prop :=
  b.Pairwise fun x y => c x.1 y.1 = true

/-- The series index is strictly increasing. -/
def SeriesSorted (S : Series) : Prop := S.Pairwise fun x y => x.1 < y.1

/-- Every series timestamp is an (epoch-aligned) multiple of `Δ`. -/
def SeriesAligned (Δ : ℕ) (S : Series) : Prop := ∀ e ∈ S, Δ ∣ e.1

instance (b : Book) : Decidable (BookPos b) :=
  inferInstanceAs (Decidable (∀ e ∈ b, 0 < e.2))

instance (S : Series) : Decidable (SeriesSorted S) :=
  inferInstanceAs (Decidable (S.Pairwise fun x y : ℕ × EFloat => x.1 < y.1))

instance (Δ : ℕ) (S : Series) : Decidable (SeriesAligned Δ S) :=
  inferInstanceAs (Decidable (∀ e ∈ S, Δ ∣ e.1))

instance (c : ℚ → ℚ → Bool) (b : Book) : Decidable (BookSorted c b) :=
  inferInstanceAs (Decidable (b.Pairwise fun x y : ℚ × ℚ => c x.1 y.1 = true))

/-- The states an engine can be in: constructed from some snapshot, then
evolved by `l2update` messages on the ingest thread interleaved with
completions of spawned retrain threads (whose `auto_arima` outcome is
`mops.fit` on the detached training snapshot). -/
inductive Reachable {μ : Type} (mops : MOps μ) (Δ : ℕ) : EngineState μ → Prop where
  | init : ∀ snap s, OrderBook.init mops Δ snap = some s → Reachable mops Δ s
  | update_step : ∀ s msg s', Reachable mops Δ s →
      OrderBook.update mops Δ s msg = some s' → Reachable mops Δ s'
  | retrain_step : ∀ s l s', Reachable mops Δ s → s.pending_train = some l →
      OrderBook.retrain_model s l (mops.fit l) = some s' → Reachable mops Δ s'

/-! ## Concrete instantiation for witnesses and counterexamples

The scenarios below never reach a model fit or prediction, so the trivial
operations record (with `μ := Unit`) drives them without loss of
generality; `fit` failing mirrors an `auto_arima` error. -/

open OrderBook

/-- A trivial model-operations record over `Unit`. -/
def trivMOps : MOps Unit :=
  ⟨fun _ => .error "fit unavailable", fun m _ => m,
   fun _ n => List.replicate n EFloat.nan⟩

/-- One second, in µs (the tests drive the engine with `sample_rate_sec=1`). -/
def oneSec : ℕ := 1000000

/-- A small snapshot at epoch 0 with one bid (10) and one ask (12). -/
def cexSnap : SnapshotMsg := { time := 0, bids := [(10, 1)], asks := [(12, 1)] }

/-- The same snapshot taken at 01:00:00 (3600 s). -/
def cexSnapLater : SnapshotMsg :=
  { time := 3600 * oneSec, bids := [(10, 1)], asks := [(12, 1)] }

/-- An empty `l2update` at 13 s: closes two 6 s forecast buckets. -/
def cexU13 : UpdateMsg := { time := 13 * oneSec, changes := [] }

/-- An empty `l2update` at 30 s. -/
def cexU30 : UpdateMsg := { time := 30 * oneSec, changes := [] }

/-- An empty `l2update` at 903 s. -/
def cexU903 : UpdateMsg := { time := 903 * oneSec, changes := [] }

/-- An empty `l2update` at epoch 0 (far in the past of `cexSnapLater`). -/
def cexULate : UpdateMsg := { time := 0, changes := [] }

/-- An empty `l2update` at 101 s. -/
def cexU101 : UpdateMsg := { time := 101 * oneSec, changes := [] }

/-- Engine state after `cexSnap` then `cexU13` (1 s sampling). -/
def cexS13 : Option (EngineState Unit) :=
  (OrderBook.init trivMOps oneSec cexSnap).bind fun s =>
    OrderBook.update trivMOps oneSec s cexU13

/-- `cexS13` after processing `cexU30` once. -/
def cexOnce : Option (EngineState Unit) :=
  cexS13.bind fun s => OrderBook.update trivMOps oneSec s cexU30

/-- `cexS13` after processing `cexU30` twice in a row. -/
def cexTwice : Option (EngineState Unit) :=
  cexOnce.bind fun s => OrderBook.update trivMOps oneSec s cexU30

/-- Engine state after `cexSnap`, `cexU13`, `cexU903` (1 s sampling):
exhibits a forecast row older than `last_update − 900 s − 1 s`. -/
def cexRetention : Option (EngineState Unit) :=
  cexS13.bind fun s => OrderBook.update trivMOps oneSec s cexU903

/-- Engine state after `cexSnapLater`, an update at 3613 s, then the very
late `cexULate`: `get_stats` raises on it. -/
def cexLateState : Option (EngineState Unit) :=
  ((OrderBook.init trivMOps oneSec cexSnapLater).bind fun s =>
    OrderBook.update trivMOps oneSec s { time := 3613 * oneSec, changes := [] }).bind
    fun s => OrderBook.update trivMOps oneSec s cexULate

/-- A hand-written well-formed state: one bid, one ask, one mid-price
sample at 100 s, empty forecast table. -/
def plainState : EngineState Unit :=
  { bids := [(10, 1)], asks := [(12, 1)], last_update := 100 * oneSec,
    mid_prices := [(100 * oneSec, EFloat.val 11)], forecast := [],
    max_ask_bid_diff := ⟨EFloat.val 10, EFloat.val 12, 100 * oneSec⟩,
    n_model_updates := 0, n_observation_to_retrain_after := 21,
    model_update_time := none, forecast_model := none,
    retrain_locked := false, pending_train := none }

/-- Folding a message list into the engine (arrival order), propagating a
raised exception. -/
def updateSeq {μ : Type} (mops : MOps μ) (Δ : ℕ) (s : EngineState μ)
    (msgs : List UpdateMsg) : Option (EngineState μ) :=
  msgs.foldl (fun o msg => o.bind fun s => OrderBook.update mops Δ s msg) (some s)

/-! # Helper lemmas: sample grid arithmetic -/

theorem floorTo_dvd (Δ t : ℕ) : Δ ∣ floorTo Δ t := Dvd.intro _ rfl

theorem floorTo_le (Δ t : ℕ) : floorTo Δ t ≤ t := Nat.mul_div_le t Δ

theorem lt_floorTo_add (Δ t : ℕ) (hΔ : 0 < Δ) : t < floorTo Δ t + Δ := by
  have h1 := Nat.div_add_mod t Δ
  have h2 := Nat.mod_lt t hΔ
  unfold floorTo
  omega

theorem floorTo_eq_self (Δ t : ℕ) (h : Δ ∣ t) : floorTo Δ t = t := by
  rcases Nat.eq_zero_or_pos Δ with rfl | hΔ
  · have : t = 0 := Nat.eq_zero_of_zero_dvd h
    simp [floorTo, this]
  · obtain ⟨k, rfl⟩ := h
    unfold floorTo
    rw [Nat.mul_div_cancel_left _ hΔ]

theorem le_ceilTo (Δ t : ℕ) (hΔ : 0 < Δ) : t ≤ ceilTo Δ t := by
  have h1 := Nat.div_add_mod (t + Δ - 1) Δ
  have h2 := Nat.mod_lt (t + Δ - 1) hΔ
  unfold ceilTo
  omega

theorem ceilTo_dvd (Δ t : ℕ) : Δ ∣ ceilTo Δ t := Dvd.intro _ rfl

theorem ceilTo_lt_add (Δ t : ℕ) (hΔ : 0 < Δ) : ceilTo Δ t < t + Δ := by
  have h1 := Nat.div_add_mod (t + Δ - 1) Δ
  have h2 := Nat.mod_lt (t + Δ - 1) hΔ
  unfold ceilTo
  omega

theorem ceilTo_eq_self (Δ t : ℕ) (hΔ : 0 < Δ) (h : Δ ∣ t) : ceilTo Δ t = t := by
  have h1 := le_ceilTo Δ t hΔ
  have h2 := ceilTo_lt_add Δ t hΔ
  obtain ⟨j, hj⟩ := ceilTo_dvd Δ t
  obtain ⟨k, rfl⟩ := h
  have e : Δ * (k + 1) = Δ * k + Δ := by ring
  have hjk' : Δ * j < Δ * (k + 1) := by omega
  have hkj' : Δ * k ≤ Δ * j := by omega
  have hkj : k ≤ j := Nat.le_of_mul_le_mul_left hkj' hΔ
  have hjk : j < k + 1 := Nat.lt_of_mul_lt_mul_left hjk'
  have : j = k := by omega
  subst this
  omega

theorem aligned_lt_imp_add_le_ceilTo (Δ a t : ℕ) (hΔ : 0 < Δ) (ha : Δ ∣ a)
    (h : a < t) : a + Δ ≤ ceilTo Δ t := by
  have h1 := le_ceilTo Δ t hΔ
  obtain ⟨k, rfl⟩ := ha
  obtain ⟨j, hj⟩ := ceilTo_dvd Δ t
  have hkj' : Δ * k < Δ * j := by omega
  have hkj : k < j := Nat.lt_of_mul_lt_mul_left hkj'
  have h2 : Δ * (k + 1) ≤ Δ * j := Nat.mul_le_mul_left Δ hkj
  have e : Δ * (k + 1) = Δ * k + Δ := by ring
  omega

theorem dvd_sub_div_mul (Δ a b : ℕ) (ha : Δ ∣ a) (hb : Δ ∣ b) (hab : a ≤ b)
    (hΔ : 0 < Δ) : a + (b - a) / Δ * Δ = b := by
  obtain ⟨k, rfl⟩ := ha
  obtain ⟨j, rfl⟩ := hb
  have hkj : k ≤ j := Nat.le_of_mul_le_mul_left hab hΔ
  obtain ⟨d, hd⟩ := Nat.le.dest hkj
  subst hd
  have e1 : Δ * (k + d) = Δ * k + Δ * d := by ring
  have e2 : Δ * (k + d) - Δ * k = Δ * d := by omega
  rw [e2, Nat.mul_div_cancel_left _ hΔ]
  ring

/-! # Helper lemmas: books -/

theorem mem_bookInsert {c : ℚ → ℚ → Bool} {p q : ℚ} {b : Book} {x : ℚ × ℚ}
    (hx : x ∈ bookInsert c p q b) : x = (p, q) ∨ x ∈ b := by
  induction b with
  | nil => simpa [bookInsert] using hx
  | cons e rest ih =>
    unfold bookInsert at hx
    split at hx
    · rcases List.mem_cons.mp hx with h | h
      · exact Or.inl h
      · exact Or.inr h
    · split at hx
      · rcases List.mem_cons.mp hx with h | h
        · exact Or.inl h
        · exact Or.inr (List.mem_cons_of_mem _ h)
      · rcases List.mem_cons.mp hx with h | h
        · exact Or.inr (h ▸ List.mem_cons_self _ _)
        · rcases ih h with h' | h'
          · exact Or.inl h'
          · exact Or.inr (List.mem_cons_of_mem _ h')

theorem bookUpsert_pos {c : ℚ → ℚ → Bool} {p q : ℚ} {b : Book}
    (hb : BookPos b) : BookPos (bookUpsert c p q b) := by
  unfold bookUpsert
  split
  · intro x hx
    rcases mem_bookInsert hx with rfl | h
    · assumption
    · exact hb x h
  · intro x hx
    exact hb x (List.mem_of_mem_filter hx)

theorem applyToBook_pos {c : ℚ → ℚ → Bool} {b : Book} {l : List Change}
    (hb : BookPos b) : BookPos (applyToBook c b l) := by
  induction l generalizing b with
  | nil => exact hb
  | cons ch rest ih => exact ih (bookUpsert_pos hb)

/-! # Helper lemmas: book lookup and idempotence -/

theorem bidKeyLt_irrefl (a : ℚ) : bidKeyLt a a = false := by
  simp [bidKeyLt]

theorem bidKeyLt_conn (a b : ℚ) (h : a ≠ b) :
    bidKeyLt a b = true ∨ bidKeyLt b a = true := by
  rcases lt_or_gt_of_ne h with hlt | hgt
  · exact Or.inr (by simp [bidKeyLt, hlt])
  · exact Or.inl (by simp [bidKeyLt, hgt])

theorem bidKeyLt_trans (a b d : ℚ) (h1 : bidKeyLt a b = true)
    (h2 : bidKeyLt b d = true) : bidKeyLt a d = true := by
  simp only [bidKeyLt, decide_eq_true_eq] at h1 h2 ⊢
  exact lt_trans h2 h1

theorem askKeyLt_irrefl (a : ℚ) : askKeyLt a a = false := by
  simp [askKeyLt]

theorem askKeyLt_conn (a b : ℚ) (h : a ≠ b) :
    askKeyLt a b = true ∨ askKeyLt b a = true := by
  rcases lt_or_gt_of_ne h with hlt | hgt
  · exact Or.inl (by simp [askKeyLt, hlt])
  · exact Or.inr (by simp [askKeyLt, hgt])

theorem askKeyLt_trans (a b d : ℚ) (h1 : askKeyLt a b = true)
    (h2 : askKeyLt b d = true) : askKeyLt a d = true := by
  simp only [askKeyLt, decide_eq_true_eq] at h1 h2 ⊢
  exact lt_trans h1 h2

theorem bookFind_insert (c : ℚ → ℚ → Bool) (p q p' : ℚ) :
    ∀ b : Book, bookFind p' (bookInsert c p q b)
      = if p' = p then some q else bookFind p' b
  | [] => by
    by_cases h : p' = p
    · subst h
      simp [bookInsert, bookFind]
    · have h2 : ¬ (p = p') := fun hh => h hh.symm
      simp [bookInsert, bookFind, h, h2]
  | (k, v) :: rest => by
    unfold bookInsert
    split
    · by_cases h : p' = p
      · subst h
        simp [bookFind, List.find?_cons]
      · have h2 : ¬ (p = p') := fun hh => h hh.symm
        simp [bookFind, List.find?_cons, h, h2]
    · split
      · rename_i hpk
        subst hpk
        by_cases h : p' = p
        · subst h
          simp [bookFind, List.find?_cons]
        · have h2 : ¬ (p = p') := fun hh => h hh.symm
          simp [bookFind, List.find?_cons, h, h2]
      · rename_i hc hpk
        by_cases hk : p' = k
        · subst hk
          have h : ¬ (p' = p) := fun hh => hpk (hh.symm.trans rfl)
          have h2 : ¬ (p = p') := fun hh => h hh.symm
          simp [bookFind, List.find?_cons, h, h2]
        · have hk2 : ¬ (k = p') := fun hh => hk hh.symm
          have hrec := bookFind_insert c p q p' rest
          by_cases h : p' = p
          · simp only [if_pos h] at hrec ⊢
            simp [bookFind, List.find?_cons, hk2] at hrec ⊢
            exact hrec
          · simp only [if_neg h] at hrec ⊢
            simp [bookFind, List.find?_cons, hk2] at hrec ⊢
            exact hrec

theorem bookFind_erase (p p' : ℚ) (b : Book) :
    bookFind p' (bookErase p b) = if p' = p then none else bookFind p' b := by
  induction b with
  | nil => by_cases h : p' = p <;> simp [bookErase, bookFind, h]
  | cons e rest ih =>
    by_cases he : e.1 = p
    · have : bookErase p (e :: rest) = bookErase p rest := by
        simp [bookErase, List.filter_cons, he]
      rw [this, ih]
      by_cases h : p' = p
      · simp [h]
      · have h2 : ¬ (e.1 = p') := fun hh => h (hh.symm.trans he)
        simp [h, bookFind, List.find?_cons, h2]
    · have : bookErase p (e :: rest) = e :: bookErase p rest := by
        simp [bookErase, List.filter_cons, he]
      rw [this]
      by_cases hk : e.1 = p'
      · have h : ¬ (p' = p) := fun hh => he (hk.trans hh)
        simp [h, bookFind, List.find?_cons, hk]
      · simp only [bookFind, List.find?_cons]
        have hk' : (decide (e.1 = p')) = false := by simp [hk]
        rw [hk']
        exact ih

theorem bookFind_upsert (c : ℚ → ℚ → Bool) (p q p' : ℚ) (b : Book) :
    bookFind p' (bookUpsert c p q b)
      = if p' = p then (if 0 < q then some q else none) else bookFind p' b := by
  unfold bookUpsert
  by_cases hq : 0 < q
  · rw [if_pos hq, bookFind_insert]
    by_cases h : p' = p <;> simp [h, hq]
  · rw [if_neg hq, bookFind_erase]
    by_cases h : p' = p <;> simp [h, hq]

theorem bookFind_applyToBook (c : ℚ → ℚ → Bool) (p' : ℚ) :
    ∀ (l : List Change) (b : Book),
    bookFind p' (applyToBook c b l)
      = l.foldl (fun v ch => if ch.price_level = p'
          then (if 0 < ch.quantity then some ch.quantity else none) else v)
        (bookFind p' b)
  | [], _ => rfl
  | ch :: rest, b => by
    show bookFind p' (applyToBook c (bookUpsert c ch.price_level ch.quantity b)
      rest) = _
    rw [bookFind_applyToBook c p' rest]
    show _ = rest.foldl _ (if ch.price_level = p'
      then (if 0 < ch.quantity then some ch.quantity else none)
      else bookFind p' b)
    congr 1
    rw [bookFind_upsert]
    by_cases h : p' = ch.price_level
    · rw [if_pos h, if_pos h.symm]
    · rw [if_neg h, if_neg (fun hh => h hh.symm)]

theorem chFold_idem (p' : ℚ) :
    ∀ (l : List Change) (v : Option ℚ),
    l.foldl (fun v ch => if ch.price_level = p'
        then (if 0 < ch.quantity then some ch.quantity else none) else v)
      (l.foldl (fun v ch => if ch.price_level = p'
          then (if 0 < ch.quantity then some ch.quantity else none) else v) v)
    = l.foldl (fun v ch => if ch.price_level = p'
        then (if 0 < ch.quantity then some ch.quantity else none) else v) v
  | [], _ => rfl
  | ch :: rest, v => by
    by_cases h : ch.price_level = p'
    · simp only [List.foldl_cons, if_pos h]
    · simp only [List.foldl_cons, if_neg h]
      exact chFold_idem p' rest v

theorem applyToBook_find_idem (c : ℚ → ℚ → Bool) (b : Book) (l : List Change)
    (p' : ℚ) :
    bookFind p' (applyToBook c (applyToBook c b l) l)
      = bookFind p' (applyToBook c b l) := by
  rw [bookFind_applyToBook, bookFind_applyToBook]
  exact chFold_idem p' l (bookFind p' b)

theorem bookInsert_sorted {c : ℚ → ℚ → Bool}
    (hconn : ∀ a b : ℚ, a ≠ b → c a b = true ∨ c b a = true)
    (htr : ∀ a b d : ℚ, c a b = true → c b d = true → c a d = true)
    (p q : ℚ) : ∀ (b : Book), BookSorted c b → BookSorted c (bookInsert c p q b)
  | [], _ => List.pairwise_singleton ..
  | (k, v) :: rest, hs => by
    obtain ⟨hk, hrest⟩ := List.pairwise_cons.mp hs
    unfold bookInsert
    split
    · rename_i hc
      refine List.Pairwise.cons ?_ hs
      intro e he
      rcases List.mem_cons.mp he with rfl | h
      · exact hc
      · exact htr p k e.1 hc (hk e h)
    · split
      · rename_i hc hpk
        subst hpk
        exact List.Pairwise.cons hk hrest
      · rename_i hc hpk
        refine List.Pairwise.cons ?_ (bookInsert_sorted hconn htr p q rest hrest)
        intro e he
        rcases mem_bookInsert he with rfl | h
        · rcases hconn p k hpk with h1 | h1
          · exact absurd h1 hc
          · exact h1
        · exact hk e h

theorem bookUpsert_sorted {c : ℚ → ℚ → Bool}
    (hconn : ∀ a b : ℚ, a ≠ b → c a b = true ∨ c b a = true)
    (htr : ∀ a b d : ℚ, c a b = true → c b d = true → c a d = true)
    (p q : ℚ) (b : Book) (hs : BookSorted c b) :
    BookSorted c (bookUpsert c p q b) := by
  unfold bookUpsert
  split
  · exact bookInsert_sorted hconn htr p q b hs
  · exact List.Pairwise.sublist (List.filter_sublist b) hs

theorem applyToBook_sorted {c : ℚ → ℚ → Bool}
    (hconn : ∀ a b : ℚ, a ≠ b → c a b = true ∨ c b a = true)
    (htr : ∀ a b d : ℚ, c a b = true → c b d = true → c a d = true) :
    ∀ (l : List Change) (b : Book), BookSorted c b →
      BookSorted c (applyToBook c b l)
  | [], _, hs => hs
  | ch :: rest, b, hs =>
    applyToBook_sorted hconn htr rest _
      (bookUpsert_sorted hconn htr ch.price_level ch.quantity b hs)

theorem mem_keys_of_bookFind {p : ℚ} {b : Book} {v : ℚ}
    (h : bookFind p b = some v) : ∃ e ∈ b, e.1 = p ∧ e.2 = v := by
  unfold bookFind at h
  obtain ⟨e, he1, he2⟩ := Option.map_eq_some'.mp h
  have hm := List.mem_of_find?_eq_some he1
  have hp := List.find?_some he1
  simp only [decide_eq_true_eq] at hp
  exact ⟨e, hm, hp, he2⟩

theorem bookFind_none_of_forall {c : ℚ → ℚ → Bool} {b : Book} {p : ℚ}
    (hirr : ∀ a, c a a = false)
    (h : ∀ e ∈ b, c p e.1 = true) : bookFind p b = none := by
  unfold bookFind
  rw [List.find?_eq_none.mpr ?_]
  · rfl
  · intro e he
    simp only [decide_eq_true_eq]
    intro hep
    have h2 := h e he
    rw [hep, hirr p] at h2
    exact Bool.false_ne_true h2

theorem bookSorted_ext {c : ℚ → ℚ → Bool}
    (hirr : ∀ a, c a a = false)
    (htr : ∀ a b d : ℚ, c a b = true → c b d = true → c a d = true) :
    ∀ (A B : Book), BookSorted c A → BookSorted c B →
      (∀ p, bookFind p A = bookFind p B) → A = B
  | [], [], _, _, _ => rfl
  | [], (kb, vb) :: B', _, _, hf => by
    have h := hf kb
    have hB : bookFind kb ((kb, vb) :: B') = some vb := by
      simp [bookFind, List.find?_cons]
    rw [hB] at h
    exact absurd h (by simp [bookFind])
  | (ka, va) :: A', [], _, _, hf => by
    have h := hf ka
    have hA : bookFind ka ((ka, va) :: A') = some va := by
      simp [bookFind, List.find?_cons]
    rw [hA] at h
    exact absurd h (by simp [bookFind])
  | (ka, va) :: A', (kb, vb) :: B', hA, hB, hf => by
    obtain ⟨hka, hA'⟩ := List.pairwise_cons.mp hA
    obtain ⟨hkb, hB'⟩ := List.pairwise_cons.mp hB
    have h1 : bookFind ka ((ka, va) :: A') = some va := by
      simp [bookFind, List.find?_cons]
    have h2 : bookFind kb ((kb, vb) :: B') = some vb := by
      simp [bookFind, List.find?_cons]
    have hkey : ka = kb := by
      by_contra hab
      have hfa := (hf ka).symm.trans h1
      obtain ⟨e, heB, hek, -⟩ := mem_keys_of_bookFind hfa
      rcases List.mem_cons.mp heB with rfl | heB'
      · exact hab hek.symm
      · have hba : c kb ka = true := hek ▸ hkb e heB'
        have hfb := (hf kb).trans h2
        obtain ⟨e2, heA, hek2, -⟩ := mem_keys_of_bookFind hfb
        rcases List.mem_cons.mp heA with rfl | heA'
        · exact hab hek2
        · have hab2 : c ka kb = true := hek2 ▸ hka e2 heA'
          have := htr ka kb ka hab2 hba
          rw [hirr ka] at this
          exact Bool.false_ne_true this
    subst hkey
    have hval : va = vb := by
      have := h1.symm.trans ((hf ka).trans h2)
      exact Option.some.inj this
    subst hval
    have htails : ∀ p, bookFind p A' = bookFind p B' := by
      intro p
      by_cases hp : p = ka
      · subst hp
        rw [bookFind_none_of_forall hirr hka, bookFind_none_of_forall hirr hkb]
      · have hp2 : (decide (ka = p)) = false := by
          simp
          exact fun hh => hp hh.symm
        have hstep := hf p
        simp only [bookFind, List.find?_cons, hp2] at hstep
        exact hstep
    rw [bookSorted_ext hirr htr A' B' hA' hB' htails]

theorem applyToBook_idem {c : ℚ → ℚ → Bool}
    (hirr : ∀ a, c a a = false)
    (hconn : ∀ a b : ℚ, a ≠ b → c a b = true ∨ c b a = true)
    (htr : ∀ a b d : ℚ, c a b = true → c b d = true → c a d = true)
    (b : Book) (hs : BookSorted c b) (l : List Change) :
    applyToBook c (applyToBook c b l) l = applyToBook c b l :=
  bookSorted_ext hirr htr _ _
    (applyToBook_sorted hconn htr l _ (applyToBook_sorted hconn htr l b hs))
    (applyToBook_sorted hconn htr l b hs)
    (fun p => applyToBook_find_idem c b l p)

/-! # Helper lemmas: pipeline shapes -/

theorem insert_record_eq {μ : Type} (s : EngineState μ) (side : String) (p q : ℚ) :
    OrderBook.insert_record s side p q = { s with
      bids := if side = "buy" then bookUpsert bidKeyLt p q s.bids else s.bids,
      asks := if side = "buy" then s.asks else bookUpsert askKeyLt p q s.asks } := by
  unfold OrderBook.insert_record OrderBook.set_book OrderBook.get_book
    OrderBook.book_key_lt
  by_cases h : side = "buy" <;> simp [h]

theorem applyChanges_eq {μ : Type} (s : EngineState μ) (l : List Change) :
    OrderBook.applyChanges s l = { s with
      bids := applyToBook bidKeyLt s.bids (l.filter fun c => decide (c.side = "buy")),
      asks := applyToBook askKeyLt s.asks
        (l.filter fun c => !decide (c.side = "buy")) } := by
  induction l generalizing s with
  | nil => rfl
  | cons ch rest ih =>
    show OrderBook.applyChanges (OrderBook.insert_record s _ _ _) rest = _
    rw [ih, insert_record_eq]
    by_cases h : ch.side = "buy" <;>
      simp [h, List.filter_cons, applyToBook]

theorem ufwtd_eq_some {μ : Type} {s s' : EngineState μ} {inc : Series}
    (h : OrderBook.update_forecast_with_train_data s = some (s', inc)) :
    s' = { s with forecast := upsertTrain s.forecast inc } := by
  unfold OrderBook.update_forecast_with_train_data at h
  obtain ⟨a, -, h2⟩ := Option.map_eq_some'.mp h
  obtain ⟨h3, h4⟩ := Prod.mk.injEq .. ▸ h2
  exact h4 ▸ h3.symm ▸ rfl

theorem update_model_fixed {μ : Type} (mops : MOps μ) (s : EngineState μ) :
    (OrderBook.update_model mops s).bids = s.bids ∧
    (OrderBook.update_model mops s).asks = s.asks ∧
    (OrderBook.update_model mops s).last_update = s.last_update ∧
    (OrderBook.update_model mops s).mid_prices = s.mid_prices ∧
    (OrderBook.update_model mops s).max_ask_bid_diff = s.max_ask_bid_diff := by
  unfold OrderBook.update_model
  split
  · split
    · exact ⟨rfl, rfl, rfl, rfl, rfl⟩
    · dsimp only
      split <;> exact ⟨rfl, rfl, rfl, rfl, rfl⟩
  · exact ⟨rfl, rfl, rfl, rfl, rfl⟩

theorem calculate_forecast_eq_some {μ : Type} {mops : MOps μ} {ni : List ℕ}
    {s s' : EngineState μ} (h : OrderBook.calculate_forecast mops ni s = some s') :
    ∃ F, s' = { s with forecast := F } := by
  unfold OrderBook.calculate_forecast at h
  split at h
  · refine ⟨s.forecast, ?_⟩
    have hs : s = s' := Option.some.inj h
    exact hs ▸ rfl
  · split at h
    · exact absurd h (by simp)
    · exact ⟨_, (Option.some.inj h).symm⟩

theorem free_resources_fixed {μ : Type} (Δ : ℕ) (s : EngineState μ) :
    (OrderBook.free_resources Δ s).bids = s.bids ∧
    (OrderBook.free_resources Δ s).asks = s.asks ∧
    (OrderBook.free_resources Δ s).last_update = s.last_update ∧
    (OrderBook.free_resources Δ s).max_ask_bid_diff = s.max_ask_bid_diff := by
  unfold OrderBook.free_resources
  split <;> (dsimp only; split <;> exact ⟨rfl, rfl, rfl, rfl⟩)

theorem free_resources_mid_bound {μ : Type} (Δ : ℕ) (s : EngineState μ)
    (e : ℕ × EFloat) (he : e ∈ (OrderBook.free_resources Δ s).mid_prices) :
    s.last_update ≤ e.1 + maxAggregationWindow + Δ := by
  unfold OrderBook.free_resources at he
  by_cases h1 : s.mid_prices.isEmpty <;> by_cases h2 : s.forecast.isEmpty <;>
    simp only [h1, h2, if_true, if_false, Bool.false_eq_true, if_neg] at he
  all_goals first
    | (have hmem := (List.mem_filter.mp he).2
       simp only [decide_eq_true_eq] at hmem
       omega)
    | (exact absurd he (by simp_all [List.isEmpty_iff]))

theorem free_resources_forecast_bound {μ : Type} (Δ : ℕ) (s : EngineState μ)
    (r : ℕ × Row) (hr : r ∈ (OrderBook.free_resources Δ s).forecast) :
    s.last_update ≤ r.1 + maxAggregationWindow + forecastSampleInterval := by
  unfold OrderBook.free_resources at hr
  by_cases h1 : s.mid_prices.isEmpty <;> by_cases h2 : s.forecast.isEmpty <;>
    simp only [h1, h2, if_true, if_false, Bool.false_eq_true, if_neg] at hr
  all_goals first
    | (have hmem := (List.mem_filter.mp hr).2
       simp only [decide_eq_true_eq] at hmem
       omega)
    | (exact absurd hr (by simp_all [List.isEmpty_iff]))

theorem uds_eq_some {μ : Type} {mops : MOps μ} {Δ : ℕ} {s sb : EngineState μ}
    {d : BidAskDiff}
    (h : OrderBook.update_data_structures mops Δ s = some (sb, d)) :
    d = OrderBook.calc_ask_bid_diff s ∧
    sb.bids = s.bids ∧ sb.asks = s.asks ∧ sb.last_update = s.last_update ∧
    sb.max_ask_bid_diff = s.max_ask_bid_diff := by
  unfold OrderBook.update_data_structures at h
  dsimp only at h
  rcases huf : OrderBook.update_forecast_with_train_data
      (OrderBook.update_mid_prices Δ s (OrderBook.calc_ask_bid_diff s)) with - | si
  · rw [huf] at h
    exact absurd h (by simp)
  · obtain ⟨s2, inc⟩ := si
    rw [huf] at h
    dsimp only at h
    rcases hcf : OrderBook.calculate_forecast mops (inc.map (·.1))
        (OrderBook.update_model mops s2) with - | s4
    · rw [hcf] at h
      exact absurd h (by simp)
    · rw [hcf] at h
      dsimp only at h
      injection Option.some.inj h with h1 h2
      subst h1
      subst h2
      obtain ⟨F, hF⟩ := calculate_forecast_eq_some hcf
      have hs2 := ufwtd_eq_some huf
      have hfr := free_resources_fixed Δ s4
      have hum := update_model_fixed mops s2
      refine ⟨rfl, ?_, ?_, ?_, ?_⟩
      · rw [hfr.1, hF]
        show (OrderBook.update_model mops s2).bids = s.bids
        rw [hum.1, hs2]
        rfl
      · rw [hfr.2.1, hF]
        show (OrderBook.update_model mops s2).asks = s.asks
        rw [hum.2.1, hs2]
        rfl
      · rw [hfr.2.2.1, hF]
        show (OrderBook.update_model mops s2).last_update = s.last_update
        rw [hum.2.2.1, hs2]
        rfl
      · rw [hfr.2.2.2, hF]
        show (OrderBook.update_model mops s2).max_ask_bid_diff = s.max_ask_bid_diff
        rw [hum.2.2.2.2, hs2]
        rfl

theorem update_eq_some {μ : Type} {mops : MOps μ} {Δ : ℕ} {s s' : EngineState μ}
    {msg : UpdateMsg} (h : OrderBook.update mops Δ s msg = some s') :
    ∃ sb, OrderBook.update_data_structures mops Δ
        (OrderBook.applyChanges { s with last_update := msg.time } msg.changes)
        = some (sb, OrderBook.new_diff_of s msg) ∧
      s' = { sb with max_ask_bid_diff :=
        OrderBook.maxStep s.max_ask_bid_diff (OrderBook.new_diff_of s msg) } := by
  unfold OrderBook.update at h
  dsimp only at h
  rcases hds : OrderBook.update_data_structures mops Δ
      (OrderBook.applyChanges { s with last_update := msg.time } msg.changes)
      with - | sd
  · rw [hds] at h
    exact absurd h (by simp)
  · obtain ⟨sb, d⟩ := sd
    rw [hds] at h
    dsimp only at h
    have hd : d = OrderBook.new_diff_of s msg := (uds_eq_some hds).1
    subst hd
    refine ⟨sb, ?_, ?_⟩
    · exact hds ▸ rfl
    · exact (Option.some.inj h).symm

/-- `update_eq_some`, with the intermediate post-change state abstracted so
that downstream rewriting works on a plain variable. -/
theorem update_eq_some2 {μ : Type} {mops : MOps μ} {Δ : ℕ} {s s' : EngineState μ}
    {msg : UpdateMsg} (h : OrderBook.update mops Δ s msg = some s') :
    ∃ sa sb,
      OrderBook.applyChanges { s with last_update := msg.time } msg.changes = sa ∧
      OrderBook.update_data_structures mops Δ sa
        = some (sb, OrderBook.calc_ask_bid_diff sa) ∧
      s' = { sb with max_ask_bid_diff :=
        OrderBook.maxStep s.max_ask_bid_diff (OrderBook.calc_ask_bid_diff sa) } := by
  obtain ⟨sb, hds, hs'⟩ := update_eq_some h
  exact ⟨_, sb, rfl, hds, hs'⟩

theorem uds_free_shape {μ : Type} {mops : MOps μ} {Δ : ℕ} {s sb : EngineState μ}
    {d : BidAskDiff}
    (h : OrderBook.update_data_structures mops Δ s = some (sb, d)) :
    ∃ s4 : EngineState μ, sb = OrderBook.free_resources Δ s4 ∧
      s4.last_update = s.last_update := by
  unfold OrderBook.update_data_structures at h
  dsimp only at h
  rcases huf : OrderBook.update_forecast_with_train_data
      (OrderBook.update_mid_prices Δ s (OrderBook.calc_ask_bid_diff s)) with - | si
  · rw [huf] at h
    exact absurd h (by simp)
  · obtain ⟨s2, inc⟩ := si
    rw [huf] at h
    dsimp only at h
    rcases hcf : OrderBook.calculate_forecast mops (inc.map (·.1))
        (OrderBook.update_model mops s2) with - | s4
    · rw [hcf] at h
      exact absurd h (by simp)
    · rw [hcf] at h
      dsimp only at h
      injection Option.some.inj h with h1 h2
      obtain ⟨F, hF⟩ := calculate_forecast_eq_some hcf
      refine ⟨s4, h1.symm, ?_⟩
      rw [hF]
      show (OrderBook.update_model mops s2).last_update = s.last_update
      rw [(update_model_fixed mops s2).2.2.1, ufwtd_eq_some huf]
      rfl

/-- Assemble a concrete `update` run from its staged pipeline components
(used to evaluate concrete scenarios without re-evaluating shared
sub-states). -/
theorem update_stages {μ : Type} (mops : MOps μ) (Δ : ℕ) (s : EngineState μ)
    (msg : UpdateMsg) (sA : EngineState μ) (d : BidAskDiff)
    (s1 s2 : EngineState μ) (inc : Series) (s3 s4 sF : EngineState μ)
    (hA : OrderBook.applyChanges { s with last_update := msg.time } msg.changes = sA)
    (hd : OrderBook.calc_ask_bid_diff sA = d)
    (h1 : OrderBook.update_mid_prices Δ sA d = s1)
    (h2 : OrderBook.update_forecast_with_train_data s1 = some (s2, inc))
    (h3 : OrderBook.update_model mops s2 = s3)
    (h4 : OrderBook.calculate_forecast mops (inc.map (·.1)) s3 = some s4)
    (h5 : OrderBook.free_resources Δ s4 = sF) :
    OrderBook.update mops Δ s msg
      = some { sF with max_ask_bid_diff :=
          OrderBook.maxStep s.max_ask_bid_diff d } := by
  unfold OrderBook.update OrderBook.update_data_structures
  dsimp only
  rw [hA, hd, h1, h2]
  dsimp only
  rw [h3, h4]
  dsimp only
  rw [h5]

/-- Assemble a concrete `init` run from its staged pipeline components. -/
theorem init_stages {μ : Type} (mops : MOps μ) (Δ : ℕ) (snap : SnapshotMsg)
    (sA : EngineState μ) (d : BidAskDiff)
    (s1 s2 : EngineState μ) (inc : Series) (s3 s4 sF : EngineState μ)
    (hA : OrderBook.snapState snap = sA)
    (hd : OrderBook.calc_ask_bid_diff sA = d)
    (h1 : OrderBook.update_mid_prices Δ sA d = s1)
    (h2 : OrderBook.update_forecast_with_train_data s1 = some (s2, inc))
    (h3 : OrderBook.update_model mops s2 = s3)
    (h4 : OrderBook.calculate_forecast mops (inc.map (·.1)) s3 = some s4)
    (h5 : OrderBook.free_resources Δ s4 = sF) :
    OrderBook.init mops Δ snap = some { sF with max_ask_bid_diff := d } := by
  unfold OrderBook.init OrderBook.update_data_structures
  dsimp only
  rw [hA, hd, h1, h2]
  dsimp only
  rw [h3, h4]
  dsimp only
  rw [h5]

/-! # Helper lemmas: `__init__` and the books -/

theorem insert_record_pos {μ : Type} {s : EngineState μ} (side : String)
    (p q : ℚ) (hb : BookPos s.bids) (ha : BookPos s.asks) :
    BookPos (OrderBook.insert_record s side p q).bids ∧
    BookPos (OrderBook.insert_record s side p q).asks := by
  rw [insert_record_eq]
  dsimp only
  by_cases h : side = "buy"
  · simp only [if_pos h]
    exact ⟨bookUpsert_pos hb, ha⟩
  · simp only [if_neg h]
    exact ⟨hb, bookUpsert_pos ha⟩

theorem insert_record_fields {μ : Type} (s : EngineState μ) (side : String)
    (p q : ℚ) :
    (OrderBook.insert_record s side p q).mid_prices = s.mid_prices ∧
    (OrderBook.insert_record s side p q).last_update = s.last_update ∧
    (OrderBook.insert_record s side p q).forecast = s.forecast := by
  rw [insert_record_eq]
  exact ⟨rfl, rfl, rfl⟩

theorem foldl_insert_record_pos {μ : Type} (side : String) :
    ∀ (l : List (ℚ × ℚ)) (s : EngineState μ), BookPos s.bids → BookPos s.asks →
    BookPos ((l.foldl (fun s pq =>
      OrderBook.insert_record s side pq.1 pq.2) s)).bids ∧
    BookPos ((l.foldl (fun s pq =>
      OrderBook.insert_record s side pq.1 pq.2) s)).asks
  | [], _, hb, ha => ⟨hb, ha⟩
  | pq :: rest, s, hb, ha => by
    have hstep := insert_record_pos side pq.1 pq.2 hb ha
    exact foldl_insert_record_pos side rest _ hstep.1 hstep.2

theorem foldl_insert_record_fields {μ : Type} (side : String) :
    ∀ (l : List (ℚ × ℚ)) (s : EngineState μ),
    ((l.foldl (fun s pq =>
      OrderBook.insert_record s side pq.1 pq.2) s)).mid_prices = s.mid_prices ∧
    ((l.foldl (fun s pq =>
      OrderBook.insert_record s side pq.1 pq.2) s)).last_update = s.last_update ∧
    ((l.foldl (fun s pq =>
      OrderBook.insert_record s side pq.1 pq.2) s)).forecast = s.forecast
  | [], _ => ⟨rfl, rfl, rfl⟩
  | pq :: rest, s => by
    have hstep := insert_record_fields s side pq.1 pq.2
    have hrest := foldl_insert_record_fields side rest
      (OrderBook.insert_record s side pq.1 pq.2)
    exact ⟨hrest.1.trans hstep.1, hrest.2.1.trans hstep.2.1,
      hrest.2.2.trans hstep.2.2⟩

theorem snapState_books_pos (μ : Type) (snap : SnapshotMsg) :
    BookPos (OrderBook.snapState snap : EngineState μ).bids ∧
    BookPos (OrderBook.snapState snap : EngineState μ).asks := by
  unfold OrderBook.snapState
  dsimp only
  have hnil : BookPos ([] : Book) := fun e he => absurd he (List.not_mem_nil e)
  have h1 := foldl_insert_record_pos "buy" snap.bids
    (⟨[], [], snap.time, [], [], ⟨EFloat.nan, EFloat.nan, 0⟩, 0,
      seasonalityM * 2 + 1, none, none, false, none⟩ : EngineState μ)
    hnil hnil
  exact foldl_insert_record_pos "sell" snap.asks _ h1.1 h1.2

theorem snapState_fields (μ : Type) (snap : SnapshotMsg) :
    (OrderBook.snapState snap : EngineState μ).mid_prices = [] ∧
    (OrderBook.snapState snap : EngineState μ).last_update = snap.time ∧
    (OrderBook.snapState snap : EngineState μ).forecast = [] := by
  unfold OrderBook.snapState
  dsimp only
  have h1 := foldl_insert_record_fields "buy" snap.bids
    (⟨[], [], snap.time, [], [], ⟨EFloat.nan, EFloat.nan, 0⟩, 0,
      seasonalityM * 2 + 1, none, none, false, none⟩ : EngineState μ)
  have h2 := foldl_insert_record_fields "sell" snap.asks
    (snap.bids.foldl (fun s pq => OrderBook.insert_record s "buy" pq.1 pq.2)
      (⟨[], [], snap.time, [], [], ⟨EFloat.nan, EFloat.nan, 0⟩, 0,
        seasonalityM * 2 + 1, none, none, false, none⟩ : EngineState μ))
  exact ⟨h2.1.trans h1.1, h2.2.1.trans h1.2.1, h2.2.2.trans h1.2.2⟩

theorem retrain_model_books {μ : Type} {s : EngineState μ} {td : Series}
    {r : Except String μ} {s' : EngineState μ}
    (h : OrderBook.retrain_model s td r = some s') :
    s'.bids = s.bids ∧ s'.asks = s.asks ∧ s'.last_update = s.last_update ∧
    s'.mid_prices = s.mid_prices ∧ s'.forecast = s.forecast ∧
    s'.max_ask_bid_diff = s.max_ask_bid_diff := by
  unfold OrderBook.retrain_model at h
  split at h
  · exact absurd h (by simp)
  · split at h
    · rw [← Option.some.inj h]
      exact ⟨rfl, rfl, rfl, rfl, rfl, rfl⟩
    · rw [← Option.some.inj h]
      exact ⟨rfl, rfl, rfl, rfl, rfl, rfl⟩

theorem init_eq_some {μ : Type} {mops : MOps μ} {Δ : ℕ} {snap : SnapshotMsg}
    {s : EngineState μ} (h : OrderBook.init mops Δ snap = some s) :
    ∃ s3 d, OrderBook.update_data_structures mops Δ (OrderBook.snapState snap)
        = some (s3, d) ∧ s = { s3 with max_ask_bid_diff := d } := by
  unfold OrderBook.init at h
  rcases hds : OrderBook.update_data_structures mops Δ (OrderBook.snapState snap)
      with - | sd
  · rw [hds] at h
    exact absurd h (by simp)
  · obtain ⟨s3, d⟩ := sd
    rw [hds] at h
    dsimp only at h
    exact ⟨s3, d, rfl, (Option.some.inj h).symm⟩

/-! # Helper lemmas: series well-formedness -/

theorem seriesSorted_sublist {S T : Series} (h : T.Sublist S)
    (hs : SeriesSorted S) : SeriesSorted T :=
  List.Pairwise.sublist h hs

theorem seriesAligned_sublist {Δ : ℕ} {S T : Series} (h : T.Sublist S)
    (ha : SeriesAligned Δ S) : SeriesAligned Δ T :=
  fun e he => ha e (h.mem he)

theorem histSlice_sublist (t obs : ℕ) (S : Series) :
    (histSlice t obs S).Sublist S := by
  unfold histSlice
  dsimp only
  split
  · split
    · exact List.filter_sublist S
    · exact (List.dropLast_sublist _).trans (List.filter_sublist S)
  · exact List.nil_sublist S

theorem sorted_le_getLast {S : Series} (hs : SeriesSorted S) {x : ℕ × EFloat}
    (hx : S.getLast? = some x) {e : ℕ × EFloat} (he : e ∈ S) : e.1 ≤ x.1 := by
  have hne : S ≠ [] := by
    intro hS
    rw [hS] at hx
    exact absurd hx (by simp)
  have hxl : x = S.getLast hne := by
    have hg := List.getLast?_eq_getLast S hne
    rw [hg] at hx
    exact (Option.some.inj hx).symm
  have hdecomp := List.dropLast_append_getLast hne
  have hs' : List.Pairwise (fun a b : ℕ × EFloat => a.1 < b.1)
      (S.dropLast ++ [S.getLast hne]) := by
    rw [hdecomp]
    exact hs
  have he' : e ∈ S.dropLast ++ [S.getLast hne] := by
    rw [hdecomp]
    exact he
  rw [List.pairwise_append] at hs'
  rcases List.mem_append.mp he' with h | h
  · exact le_of_lt
      (hxl ▸ hs'.2.2 e h (S.getLast hne) (List.mem_singleton_self _))
  · rw [List.mem_singleton.mp h, hxl]

theorem histSlice_last_lt {t : ℕ} {S : Series} (hs : SeriesSorted S)
    {x : ℕ × EFloat} (hx : (histSlice t t S).getLast? = some x) : x.1 < t := by
  unfold histSlice at hx
  dsimp only at hx
  rcases hg : (sliceTo t S).getLast? with - | e
  · rw [hg] at hx
    exact absurd hx (by simp)
  · rw [hg] at hx
    dsimp only at hx
    have hsort : SeriesSorted (sliceTo t S) :=
      seriesSorted_sublist (List.filter_sublist S) hs
    have het : e.1 ≤ t := by
      have := (List.mem_filter.mp (List.mem_of_mem_getLast? hg)).2
      simpa using this
    by_cases hne : e.1 ≠ t
    · rw [if_pos hne] at hx
      have hex : e = x := Option.some.inj (hg.symm.trans hx)
      subst hex
      omega
    · rw [if_neg hne] at hx
      push_neg at hne
      have hxin : x ∈ (sliceTo t S).dropLast := List.mem_of_mem_getLast? hx
      have hlt : x.1 < e.1 := by
        have hne2 : sliceTo t S ≠ [] := by
          intro hS
          rw [hS] at hg
          exact absurd hg (by simp)
        have hxl : e = (sliceTo t S).getLast hne2 := by
          have hg' := List.getLast?_eq_getLast (sliceTo t S) hne2
          exact Option.some.inj (hg.symm.trans hg')
        have hdecomp := List.dropLast_append_getLast hne2
        have hsort' : List.Pairwise (fun a b : ℕ × EFloat => a.1 < b.1)
            ((sliceTo t S).dropLast ++ [(sliceTo t S).getLast hne2]) := by
          rw [hdecomp]
          exact hsort
        rw [List.pairwise_append] at hsort'
        exact hxl ▸ hsort'.2.2 x hxin _ (List.mem_singleton_self _)
      omega

theorem mem_fillTicks {Δ t₀ : ℕ} {v m : EFloat} {obs : ℕ} {e : ℕ × EFloat}
    (he : e ∈ fillTicks Δ t₀ v obs m) :
    ∃ k, k < (ceilTo Δ obs - t₀) / Δ ∧ e.1 = t₀ + (k + 1) * Δ := by
  unfold fillTicks at he
  obtain ⟨k, hk, he⟩ := List.mem_map.mp he
  exact ⟨k, List.mem_range.mp hk, by rw [← he]⟩

theorem fillTicks_sorted (Δ t₀ : ℕ) (v : EFloat) (obs : ℕ) (m : EFloat)
    (hΔ : 0 < Δ) : SeriesSorted (fillTicks Δ t₀ v obs m) := by
  unfold fillTicks SeriesSorted
  refine List.Pairwise.map _ ?_ (List.pairwise_lt_range _)
  intro a b hab
  dsimp only
  have : (a + 1) * Δ < (b + 1) * Δ := (Nat.mul_lt_mul_right hΔ).mpr (by omega)
  omega

theorem fillTicks_concat {Δ t₀ : ℕ} {v : EFloat} {obs : ℕ} {m : EFloat}
    (hΔ : 0 < Δ) (ht₀ : Δ ∣ t₀) (h : t₀ < obs) :
    fillTicks Δ t₀ v obs m
      = ((List.range ((ceilTo Δ obs - t₀) / Δ - 1)).map
          fun k => (t₀ + (k + 1) * Δ, v))
        ++ [(ceilTo Δ obs, m)] := by
  have hC1 := aligned_lt_imp_add_le_ceilTo Δ t₀ obs hΔ ht₀ h
  have hC2 := ceilTo_lt_add Δ obs hΔ
  have hC3 := le_ceilTo Δ obs hΔ
  have hK : 1 ≤ (ceilTo Δ obs - t₀) / Δ :=
    (Nat.le_div_iff_mul_le hΔ).mpr (by omega)
  have hKmul := dvd_sub_div_mul Δ t₀ (ceilTo Δ obs) ht₀ (ceilTo_dvd Δ obs)
    (by omega) hΔ
  obtain ⟨K', hK'⟩ : ∃ K', (ceilTo Δ obs - t₀) / Δ = K' + 1 :=
    ⟨(ceilTo Δ obs - t₀) / Δ - 1, by omega⟩
  unfold fillTicks
  rw [hK', List.range_succ, List.map_append]
  congr 1
  · refine List.map_congr_left ?_
    intro k hk
    have hkK : k < K' := List.mem_range.mp hk
    have hkb : t₀ + (k + 1) * Δ < obs := by
      have h1 : (k + 1) * Δ + Δ ≤ (K' + 1) * Δ := by
        have hm : (k + 2) * Δ ≤ (K' + 1) * Δ := Nat.mul_le_mul_right Δ (by omega)
        have e : (k + 2) * Δ = (k + 1) * Δ + Δ := by ring
        omega
      have h2 : t₀ + (K' + 1) * Δ = ceilTo Δ obs := by
        rw [← hK']
        exact hKmul
      omega
    simp [if_pos hkb]
  · have h2 : t₀ + (K' + 1) * Δ = ceilTo Δ obs := by
      rw [← hK']
      exact hKmul
    have hge : ¬ ceilTo Δ obs < obs := by omega
    simp [h2, if_neg hge]

theorem fillTicks_getLast {Δ t₀ : ℕ} {v : EFloat} {obs : ℕ} {m : EFloat}
    (hΔ : 0 < Δ) (ht₀ : Δ ∣ t₀) (h : t₀ < obs) :
    (fillTicks Δ t₀ v obs m).getLast? = some (ceilTo Δ obs, m) := by
  rw [fillTicks_concat hΔ ht₀ h]
  exact List.getLast?_concat _

theorem bound_le_floorTo (Δ t W : ℕ) (hΔ : 0 < Δ) :
    t - W - Δ ≤ floorTo Δ t := by
  have h1 := Nat.div_add_mod t Δ
  have h2 := Nat.mod_lt t hΔ
  unfold floorTo
  omega

theorem sliceFrom_ne_nil {b : ℕ} {S : Series} {x : ℕ × EFloat}
    (hx : S.getLast? = some x) (hb : b ≤ x.1) : sliceFrom b S ≠ [] := by
  have hmem : x ∈ sliceFrom b S :=
    List.mem_filter.mpr ⟨List.mem_of_mem_getLast? hx, by simpa using hb⟩
  exact List.ne_nil_of_mem hmem

/-- The new mid-price series built by `__update_mid_prices` is sorted,
grid-aligned and ends at or after `floorTo Δ t`. -/
theorem midSeriesNext_wf (Δ t : ℕ) (hΔ : 0 < Δ) (m : EFloat) (S : Series)
    (hs : SeriesSorted S) (ha : SeriesAligned Δ S) :
    SeriesSorted (OrderBook.midSeriesNext Δ t t m S) ∧
    SeriesAligned Δ (OrderBook.midSeriesNext Δ t t m S) ∧
    ∃ x, (OrderBook.midSeriesNext Δ t t m S).getLast? = some x ∧
      floorTo Δ t ≤ x.1 ∧ Δ ∣ x.1 := by
  unfold OrderBook.midSeriesNext
  dsimp only
  rcases hH : (histSlice t t S).getLast? with - | lastE
  · refine ⟨List.pairwise_singleton .., ?_, ⟨_, rfl, le_rfl, floorTo_dvd Δ t⟩⟩
    intro e he
    rw [List.mem_singleton.mp he]
    exact floorTo_dvd Δ t
  · have hsub := histSlice_sublist t t S
    have hHs : SeriesSorted (histSlice t t S) := seriesSorted_sublist hsub hs
    have hHa : SeriesAligned Δ (histSlice t t S) := seriesAligned_sublist hsub ha
    have hlt : lastE.1 < t := histSlice_last_lt hs hH
    have halign : Δ ∣ lastE.1 := hHa lastE (List.mem_of_mem_getLast? hH)
    refine ⟨?_, ?_, ?_⟩
    · rw [SeriesSorted, List.pairwise_append]
      refine ⟨hHs, fillTicks_sorted Δ lastE.1 lastE.2 t m hΔ, ?_⟩
      intro a haH b hbF
      obtain ⟨k, -, hb1⟩ := mem_fillTicks hbF
      have h1 : a.1 ≤ lastE.1 := sorted_le_getLast hHs hH haH
      have h2 : 0 < (k + 1) * Δ := by positivity
      omega
    · intro e he
      rcases List.mem_append.mp he with h | h
      · exact hHa e h
      · obtain ⟨k, -, he1⟩ := mem_fillTicks h
        rw [he1]
        exact Dvd.dvd.add halign (Dvd.dvd.mul_left dvd_rfl (k + 1))
    · rw [List.getLast?_append]
      rw [fillTicks_getLast hΔ halign hlt]
      refine ⟨_, rfl, ?_, ceilTo_dvd Δ t⟩
      exact le_trans (floorTo_le Δ t) (le_ceilTo Δ t hΔ)

/-- `__free_resources` either leaves `_mid_prices` alone (when empty) or
label-slices it from the retention bound. -/
theorem free_resources_mid {μ : Type} (Δ : ℕ) (s : EngineState μ) :
    (OrderBook.free_resources Δ s).mid_prices = s.mid_prices ∨
    (OrderBook.free_resources Δ s).mid_prices
      = sliceFrom (s.last_update - maxAggregationWindow - Δ) s.mid_prices := by
  unfold OrderBook.free_resources
  split <;> (dsimp only; split)
  · exact Or.inl rfl
  · exact Or.inl rfl
  · exact Or.inr rfl
  · exact Or.inr rfl

/-- Through `__update_data_structures`, the resulting `_mid_prices` is the
`midSeriesNext` rebuild (for some mid value), possibly trimmed by
`__free_resources`. -/
theorem uds_mid_stage {μ : Type} {mops : MOps μ} {Δ : ℕ} {s sb : EngineState μ}
    {d : BidAskDiff}
    (h : OrderBook.update_data_structures mops Δ s = some (sb, d)) :
    ∃ s4 : EngineState μ, sb = OrderBook.free_resources Δ s4 ∧
      s4.last_update = s.last_update ∧
      s4.mid_prices = OrderBook.midSeriesNext Δ s.last_update s.last_update
        (EFloat.half (EFloat.add
          (OrderBook.calc_ask_bid_diff s).highest_bid_price_level
          (OrderBook.calc_ask_bid_diff s).lowest_ask_price_level))
        s.mid_prices := by
  unfold OrderBook.update_data_structures at h
  dsimp only at h
  rcases huf : OrderBook.update_forecast_with_train_data
      (OrderBook.update_mid_prices Δ s (OrderBook.calc_ask_bid_diff s)) with - | si
  · rw [huf] at h
    exact absurd h (by simp)
  · obtain ⟨s2, inc⟩ := si
    rw [huf] at h
    dsimp only at h
    rcases hcf : OrderBook.calculate_forecast mops (inc.map (·.1))
        (OrderBook.update_model mops s2) with - | s4
    · rw [hcf] at h
      exact absurd h (by simp)
    · rw [hcf] at h
      dsimp only at h
      injection Option.some.inj h with h1 h2
      obtain ⟨F, hF⟩ := calculate_forecast_eq_some hcf
      refine ⟨s4, h1.symm, ?_, ?_⟩
      · rw [hF]
        show (OrderBook.update_model mops s2).last_update = s.last_update
        rw [(update_model_fixed mops s2).2.2.1, ufwtd_eq_some huf]
        rfl
      · rw [hF]
        show (OrderBook.update_model mops s2).mid_prices = _
        rw [(update_model_fixed mops s2).2.2.2.1, ufwtd_eq_some huf]
        rfl

/-- `__update_data_structures` keeps the mid-price series strictly sorted,
grid-aligned and nonempty. -/
theorem uds_mid_wf {μ : Type} {mops : MOps μ} {Δ : ℕ} {s sb : EngineState μ}
    {d : BidAskDiff} (hΔ : 0 < Δ)
    (hs : SeriesSorted s.mid_prices) (ha : SeriesAligned Δ s.mid_prices)
    (h : OrderBook.update_data_structures mops Δ s = some (sb, d)) :
    SeriesSorted sb.mid_prices ∧ SeriesAligned Δ sb.mid_prices ∧
    sb.mid_prices ≠ [] := by
  obtain ⟨s4, hsb, hlu, hmid⟩ := uds_mid_stage h
  obtain ⟨hsort, halign, x, hlast, hge, -⟩ :=
    midSeriesNext_wf Δ s.last_update hΔ
      (EFloat.half (EFloat.add
        (OrderBook.calc_ask_bid_diff s).highest_bid_price_level
        (OrderBook.calc_ask_bid_diff s).lowest_ask_price_level))
      s.mid_prices hs ha
  rw [← hmid] at hsort halign hlast
  subst hsb
  rcases free_resources_mid Δ s4 with hc | hc <;> rw [hc]
  · exact ⟨hsort, halign, List.ne_nil_of_mem (List.mem_of_mem_getLast? hlast)⟩
  · refine ⟨seriesSorted_sublist (List.filter_sublist _) hsort,
      seriesAligned_sublist (List.filter_sublist _) halign, ?_⟩
    refine sliceFrom_ne_nil hlast ?_
    have hb := bound_le_floorTo Δ s.last_update maxAggregationWindow hΔ
    rw [hlu]
    omega

/-- Invariant: in every reachable state the mid-price series is strictly
sorted, grid-aligned and nonempty. -/
theorem reachable_series_inv {μ : Type} (mops : MOps μ) (Δ : ℕ) (hΔ : 0 < Δ)
    (s : EngineState μ) (h : Reachable mops Δ s) :
    SeriesSorted s.mid_prices ∧ SeriesAligned Δ s.mid_prices ∧
    s.mid_prices ≠ [] := by
  induction h with
  | init snap t hinit =>
    obtain ⟨s3, d, hds, rfl⟩ := init_eq_some hinit
    have hf := snapState_fields μ snap
    have hs0 : SeriesSorted (OrderBook.snapState snap : EngineState μ).mid_prices := by
      rw [hf.1]
      exact List.Pairwise.nil
    have ha0 : SeriesAligned Δ (OrderBook.snapState snap : EngineState μ).mid_prices := by
      rw [hf.1]
      intro e he
      exact absurd he (List.not_mem_nil e)
    show SeriesSorted s3.mid_prices ∧ SeriesAligned Δ s3.mid_prices ∧
      s3.mid_prices ≠ []
    exact uds_mid_wf hΔ hs0 ha0 hds
  | update_step t msg t' hr hupd ih =>
    obtain ⟨sb, hds, rfl⟩ := update_eq_some hupd
    have hmid : (OrderBook.applyChanges { t with last_update := msg.time }
        msg.changes).mid_prices = t.mid_prices := by
      rw [applyChanges_eq]
    have hs1 : SeriesSorted (OrderBook.applyChanges
        { t with last_update := msg.time } msg.changes).mid_prices := by
      rw [hmid]
      exact ih.1
    have ha1 : SeriesAligned Δ (OrderBook.applyChanges
        { t with last_update := msg.time } msg.changes).mid_prices := by
      rw [hmid]
      exact ih.2.1
    show SeriesSorted sb.mid_prices ∧ SeriesAligned Δ sb.mid_prices ∧
      sb.mid_prices ≠ []
    exact uds_mid_wf hΔ hs1 ha1 hds
  | retrain_step t l t' hr hpend hret ih =>
    obtain ⟨-, -, -, hm, -⟩ := retrain_model_books hret
    rw [hm]
    exact ih

/-- When the forecast table is empty, a nonempty mid-price series makes
`get_stats` succeed. -/
theorem get_stats_isSome_of {μ : Type} (s : EngineState μ)
    (hm : s.mid_prices ≠ []) (hf : s.forecast = []) :
    (OrderBook.get_stats s).isSome = true := by
  unfold OrderBook.get_stats
  rcases hg : s.mid_prices.getLast? with - | lastE
  · exact absurd (List.getLast?_eq_none_iff.mp hg) hm
  · dsimp only
    rw [hf]
    simp

/-! # Helper lemmas: idempotence of the mid-price rebuild -/

theorem midSeriesNext_ne_nil (Δ t obs : ℕ) (m : EFloat) (S : Series) :
    OrderBook.midSeriesNext Δ t obs m S ≠ [] := by
  unfold OrderBook.midSeriesNext
  dsimp only
  rcases hH : (histSlice t obs S).getLast? with - | lastE
  · exact List.cons_ne_nil _ _
  · have hne : histSlice t obs S ≠ [] := by
      intro hS
      rw [hS] at hH
      exact absurd hH (by simp)
    intro hc
    exact hne (List.append_eq_nil.mp hc).1

theorem free_resources_mid_of_ne {μ : Type} (Δ : ℕ) (s : EngineState μ)
    (h : s.mid_prices ≠ []) :
    (OrderBook.free_resources Δ s).mid_prices
      = sliceFrom (s.last_update - maxAggregationWindow - Δ) s.mid_prices := by
  have h1 : s.mid_prices.isEmpty = false := by simp [List.isEmpty_iff, h]
  unfold OrderBook.free_resources
  simp only [h1, Bool.false_eq_true, if_false]
  split <;> rfl

theorem eq_dropLast_concat {α : Type} {X : List α} {x : α}
    (h : X.getLast? = some x) : X = X.dropLast ++ [x] := by
  have hne : X ≠ [] := by
    intro hX
    rw [hX] at h
    exact absurd h (by simp)
  have h2 := List.getLast?_eq_getLast X hne
  have hval : X.getLast hne = x := Option.some.inj (h2.symm.trans h)
  rw [← hval]
  exact (List.dropLast_append_getLast hne).symm

theorem sliceFrom_concat {a : ℕ} {A : Series} {x : ℕ × EFloat} (h : a ≤ x.1) :
    sliceFrom a (A ++ [x]) = sliceFrom a A ++ [x] := by
  unfold sliceFrom
  rw [List.filter_append]
  congr 1
  simp [h]

theorem sliceFrom_idem (a : ℕ) (S : Series) :
    sliceFrom a (sliceFrom a S) = sliceFrom a S := by
  unfold sliceFrom
  refine List.filter_eq_self.mpr ?_
  intro e he
  exact (List.mem_filter.mp he).2

theorem range_map_getLast {α : Type} (f : ℕ → α) (n : ℕ) (hn : n ≠ 0) :
    ((List.range n).map f).getLast? = some (f (n - 1)) := by
  obtain ⟨k, rfl⟩ : ∃ k, n = k + 1 := ⟨n - 1, by omega⟩
  rw [List.range_succ, List.map_append]
  simp [List.getLast?_concat]

/-- Shape of the rebuilt series `M = midSeriesNext Δ t t m S`: it ends at
`(ceilTo Δ t, m)`, its penultimate entry (when present) sits one grid step
earlier, and it is a singleton only when `t` is on the grid. -/
theorem mid_M_props (Δ t : ℕ) (hΔ : 0 < Δ) (m : EFloat) (S : Series)
    (hs : SeriesSorted S) (ha : SeriesAligned Δ S)
    (hyp : histSlice t t S ≠ [] ∨ Δ ∣ t) :
    (OrderBook.midSeriesNext Δ t t m S).getLast? = some (ceilTo Δ t, m) ∧
    (∀ p, (OrderBook.midSeriesNext Δ t t m S).dropLast.getLast? = some p →
      p.1 = ceilTo Δ t - Δ) ∧
    ((OrderBook.midSeriesNext Δ t t m S).dropLast = [] → Δ ∣ t) := by
  unfold OrderBook.midSeriesNext
  dsimp only
  rcases hH : (histSlice t t S).getLast? with - | lastE
  · have hdvd : Δ ∣ t := by
      rcases hyp with hne | hd
      · exact (hne (List.getLast?_eq_none_iff.mp hH)).elim
      · exact hd
    have hfc : floorTo Δ t = t := floorTo_eq_self Δ t hdvd
    have hcc : ceilTo Δ t = t := ceilTo_eq_self Δ t hΔ hdvd
    refine ⟨by simp [hfc, hcc], ?_, fun _ => hdvd⟩
    intro p hp
    simp at hp
  · have hsub := histSlice_sublist t t S
    have hlt : lastE.1 < t := histSlice_last_lt hs hH
    have hdL : Δ ∣ lastE.1 := ha lastE (hsub.mem (List.mem_of_mem_getLast? hH))
    have hK1 : lastE.1 + Δ ≤ ceilTo Δ t :=
      aligned_lt_imp_add_le_ceilTo Δ lastE.1 t hΔ hdL hlt
    have hKmul := dvd_sub_div_mul Δ lastE.1 (ceilTo Δ t) hdL (ceilTo_dvd Δ t)
      (by omega) hΔ
    have hfc := @fillTicks_concat Δ lastE.1 lastE.2 t m hΔ hdL hlt
    have hKpos : 1 ≤ (ceilTo Δ t - lastE.1) / Δ :=
      (Nat.le_div_iff_mul_le hΔ).mpr (by omega)
    dsimp only
    refine ⟨?_, ?_, ?_⟩
    · rw [List.getLast?_append, fillTicks_getLast hΔ hdL hlt]
      rfl
    · intro p hp
      rw [hfc, ← List.append_assoc, List.dropLast_concat,
        List.getLast?_append, hH] at hp
      by_cases hti : (ceilTo Δ t - lastE.1) / Δ - 1 = 0
      · rw [hti] at hp
        simp only [List.range_zero, List.map_nil, List.getLast?_nil] at hp
        have hpe : lastE = p := Option.some.inj hp
        have hp1 : lastE.1 = p.1 := congrArg Prod.fst hpe
        have hKe : (ceilTo Δ t - lastE.1) / Δ = 1 := by omega
        rw [hKe, one_mul] at hKmul
        omega
      · rw [range_map_getLast _ _ hti] at hp
        have hp1 : lastE.1 + ((ceilTo Δ t - lastE.1) / Δ - 1 - 1 + 1) * Δ = p.1 :=
          congrArg Prod.fst (Option.some.inj hp)
        have he1 : (ceilTo Δ t - lastE.1) / Δ - 1 - 1 + 1
            = (ceilTo Δ t - lastE.1) / Δ - 1 := by omega
        rw [he1] at hp1
        have hKe : (ceilTo Δ t - lastE.1) / Δ
            = (ceilTo Δ t - lastE.1) / Δ - 1 + 1 := by omega
        have hmul : (ceilTo Δ t - lastE.1) / Δ * Δ
            = ((ceilTo Δ t - lastE.1) / Δ - 1) * Δ + Δ := by
          nth_rewrite 1 [hKe]
          ring
        omega
    · rw [hfc, ← List.append_assoc, List.dropLast_concat]
      intro hc
      exact absurd (List.append_eq_nil.mp hc).1
        (List.ne_nil_of_mem (List.mem_of_mem_getLast? hH))

/-- A series with the shape produced by a rebuild at time `t` — ending at
`(ceilTo Δ t, m)` with its penultimate entry one grid step earlier — is a
fixed point of the rebuild at `t`. -/
theorem midSeriesNext_fixed (Δ t : ℕ) (hΔ : 0 < Δ) (m : EFloat) (X : Series)
    (hs : SeriesSorted X)
    (hlast : X.getLast? = some (ceilTo Δ t, m))
    (hpen : ∀ p, X.dropLast.getLast? = some p → p.1 = ceilTo Δ t - Δ)
    (hnt : Δ ∣ t ∨ X.dropLast ≠ []) :
    OrderBook.midSeriesNext Δ t t m X = X := by
  obtain ⟨A, rfl⟩ : ∃ A, X = A ++ [(ceilTo Δ t, m)] :=
    ⟨X.dropLast, eq_dropLast_concat hlast⟩
  rw [List.dropLast_concat] at hpen hnt
  have hsA : SeriesSorted A :=
    List.Pairwise.sublist (List.sublist_append_left A _) hs
  have hAlt : ∀ e ∈ A, e.1 < ceilTo Δ t := by
    intro e he
    exact (List.pairwise_append.mp hs).2.2 e he (ceilTo Δ t, m)
      (List.mem_singleton_self _)
  by_cases hd : Δ ∣ t
  · have hcc : ceilTo Δ t = t := ceilTo_eq_self Δ t hΔ hd
    rcases hAg : A.getLast? with - | p
    · have hAnil : A = [] := List.getLast?_eq_none_iff.mp hAg
      subst hAnil
      simp only [List.nil_append]
      rw [hcc]
      unfold OrderBook.midSeriesNext histSlice sliceTo
      dsimp only
      simp [floorTo_eq_self Δ t hd]
    · have hp1 := hpen p hAg
      rw [hcc] at hp1
      have hpmem : p ∈ A := List.mem_of_mem_getLast? hAg
      have hplt : p.1 < t := by
        have := hAlt p hpmem
        omega
      have htpos : 0 < t := by omega
      have htge : Δ ≤ t := Nat.le_of_dvd htpos hd
      have hpt : p.1 + Δ = t := by omega
      rw [hcc]
      have hst : sliceTo t (A ++ [(t, m)]) = A ++ [(t, m)] := by
        unfold sliceTo
        refine List.filter_eq_self.mpr ?_
        intro e he
        rcases List.mem_append.mp he with h | h
        · have h1 := sorted_le_getLast hsA hAg h
          simp only [decide_eq_true_eq]
          omega
        · rw [List.mem_singleton.mp h]
          simp
      have hhist : histSlice t t (A ++ [(t, m)]) = A := by
        unfold histSlice
        dsimp only
        rw [hst, List.getLast?_concat]
        simp
      unfold OrderBook.midSeriesNext
      dsimp only
      rw [hhist, hAg]
      dsimp only
      congr 1
      unfold fillTicks
      have hdiv : (ceilTo Δ t - p.1) / Δ = 1 := by
        rw [hcc, show t - p.1 = Δ from by omega]
        exact Nat.div_self hΔ
      rw [hdiv]
      have he : p.1 + (0 + 1) * Δ = t := by omega
      simp [List.range_succ, he, hcc]
      exact ⟨hpt, fun hlt => absurd hlt (by omega)⟩
  · have hAne : A ≠ [] := by
      rcases hnt with hd' | h
      · exact absurd hd' hd
      · exact h
    rcases hAg : A.getLast? with - | p
    · exact absurd (List.getLast?_eq_none_iff.mp hAg) hAne
    · have hp1 := hpen p hAg
      have hne : ceilTo Δ t ≠ t := fun hEq => hd (hEq ▸ ceilTo_dvd Δ t)
      have hle := le_ceilTo Δ t hΔ
      have hlt_t : t < ceilTo Δ t := by omega
      have htpos : 0 < t := Nat.pos_of_ne_zero fun h0 => hd (h0 ▸ dvd_zero Δ)
      have hDle : Δ ≤ ceilTo Δ t := Nat.le_of_dvd (by omega) (ceilTo_dvd Δ t)
      have hca := ceilTo_lt_add Δ t hΔ
      have hplt : p.1 < t := by omega
      have hpΔ : p.1 + Δ = ceilTo Δ t := by omega
      have hst : sliceTo t (A ++ [(ceilTo Δ t, m)]) = A := by
        unfold sliceTo
        rw [List.filter_append]
        have h1 : List.filter (fun e => decide (e.1 ≤ t)) A = A := by
          refine List.filter_eq_self.mpr ?_
          intro e he
          have h2 := sorted_le_getLast hsA hAg he
          simp only [decide_eq_true_eq]
          omega
        have h2 : List.filter (fun e : ℕ × EFloat => decide (e.1 ≤ t))
            [(ceilTo Δ t, m)] = [] := by
          simp
          omega
        rw [h1, h2, List.append_nil]
      have hhist : histSlice t t (A ++ [(ceilTo Δ t, m)]) = A := by
        unfold histSlice
        dsimp only
        rw [hst, hAg]
        dsimp only
        rw [if_pos (by omega : p.1 ≠ t)]
      unfold OrderBook.midSeriesNext
      dsimp only
      rw [hhist, hAg]
      dsimp only
      congr 1
      unfold fillTicks
      have hdiv : (ceilTo Δ t - p.1) / Δ = 1 := by
        rw [show ceilTo Δ t - p.1 = Δ from by omega]
        exact Nat.div_self hΔ
      rw [hdiv]
      have he : p.1 + (0 + 1) * Δ = ceilTo Δ t := by omega
      simp [List.range_succ, he, show ¬ ceilTo Δ t < t from by omega]
      exact ⟨hpΔ, fun hlt => absurd hlt (by omega)⟩

/-- The `_mid_prices` series produced by `__update_data_structures`: the
`midSeriesNext` rebuild at `last_update`, trimmed by the retention bound. -/
theorem uds_mid_of_shape {μ : Type} {mops : MOps μ} {Δ : ℕ} {sa sb : EngineState μ}
    {d : BidAskDiff}
    (h : OrderBook.update_data_structures mops Δ sa = some (sb, d)) :
    sb.mid_prices = sliceFrom (sa.last_update - maxAggregationWindow - Δ)
      (OrderBook.midSeriesNext Δ sa.last_update sa.last_update
        (EFloat.half (EFloat.add
          (OrderBook.calc_ask_bid_diff sa).highest_bid_price_level
          (OrderBook.calc_ask_bid_diff sa).lowest_ask_price_level))
        sa.mid_prices) := by
  obtain ⟨s4, hfr, hlu, hmid⟩ := uds_mid_stage h
  have hne : s4.mid_prices ≠ [] := by
    rw [hmid]
    exact midSeriesNext_ne_nil _ _ _ _ _
  rw [hfr, free_resources_mid_of_ne Δ s4 hne, hmid, hlu]

/-- `__calc_ask_bid_diff` only reads the books and `_last_update`. -/
theorem calc_ask_bid_diff_congr {μ : Type} (s1 s2 : EngineState μ)
    (hb : s1.bids = s2.bids) (ha : s1.asks = s2.asks)
    (hl : s1.last_update = s2.last_update) :
    OrderBook.calc_ask_bid_diff s1 = OrderBook.calc_ask_bid_diff s2 := by
  unfold OrderBook.calc_ask_bid_diff OrderBook.get_first_record OrderBook.get_book
  simp [hb, ha, hl]

/-- The `max_ask_bid_diff` update rule absorbs a repeat of the same diff. -/
theorem maxStep_idem (o n : BidAskDiff) :
    OrderBook.maxStep (OrderBook.maxStep o n) n = OrderBook.maxStep o n := by
  simp only [OrderBook.maxStep]
  by_cases h : (EFloat.gt n.diff o.diff || EFloat.isNaN o.diff) = true
  · simp only [if_pos h]
    split <;> rfl
  · simp only [if_neg h]

/-! # Helper lemmas: the max-spread step -/

theorem eLt_nan (x : EFloat) : EFloat.lt x EFloat.nan = false := by
  cases x <;> rfl

theorem eLt_self (x : EFloat) : EFloat.lt x x = false := by
  cases x <;> simp [EFloat.lt]

theorem maxStep_not_lt (old nd : BidAskDiff) :
    EFloat.lt (OrderBook.maxStep old nd).diff old.diff = false := by
  unfold OrderBook.maxStep
  split
  · rename_i hc
    rcases (Bool.or_eq_true .. ▸ hc : _ ∨ _) with hgt | hnan
    · cases hnd : nd.diff <;> cases hold : old.diff <;>
        rw [hnd, hold] at hgt <;> simp_all [EFloat.gt, EFloat.lt]
      exact le_of_lt hgt
    · cases hold : old.diff
      · exact eLt_nan _
      · rw [hold] at hnan
        simp [EFloat.isNaN] at hnan
  · exact eLt_self _

theorem maxStep_val_le (old nd : BidAskDiff) (x : ℚ)
    (hx : old.diff = EFloat.val x) :
    ∃ y, (OrderBook.maxStep old nd).diff = EFloat.val y ∧ x ≤ y := by
  unfold OrderBook.maxStep
  split
  · rename_i hc
    rcases (Bool.or_eq_true .. ▸ hc : _ ∨ _) with hgt | hnan
    · cases hnd : nd.diff
      · rw [hnd, hx] at hgt
        simp [EFloat.gt] at hgt
      · rw [hnd, hx] at hgt
        simp only [EFloat.gt, decide_eq_true_eq] at hgt
        exact ⟨_, rfl, le_of_lt hgt⟩
    · rw [hx] at hnan
      simp [EFloat.isNaN] at hnan
  · exact ⟨x, hx, le_rfl⟩

theorem maxStep_tie (old nd : BidAskDiff)
    (h1 : EFloat.isNaN old.diff = false) (h2 : nd.diff = old.diff) :
    OrderBook.maxStep old nd = old := by
  unfold OrderBook.maxStep
  cases hold : old.diff
  · rw [hold] at h1
    simp [EFloat.isNaN] at h1
  · rw [if_neg]
    rw [h2, hold, EFloat.isNaN]
    simp [EFloat.gt]

theorem updateSeq_none {μ : Type} (mops : MOps μ) (Δ : ℕ)
    (msgs : List UpdateMsg) :
    msgs.foldl (fun o msg => o.bind fun s => OrderBook.update mops Δ s msg)
      (none : Option (EngineState μ)) = none := by
  induction msgs with
  | nil => rfl
  | cons m ms ih => simpa using ih

theorem updateSeq_not_lt {μ : Type} (mops : MOps μ) (Δ : ℕ)
    (msgs : List UpdateMsg) :
    ∀ s sN : EngineState μ, updateSeq mops Δ s msgs = some sN →
      EFloat.lt sN.max_ask_bid_diff.diff s.max_ask_bid_diff.diff = false := by
  induction msgs with
  | nil =>
    intro s sN h
    have : s = sN := Option.some.inj h
    subst this
    exact eLt_self _
  | cons m ms ih =>
    intro s sN h
    unfold updateSeq at h
    rw [List.foldl_cons] at h
    rw [Option.some_bind] at h
    rcases hu : OrderBook.update mops Δ s m with - | s1
    · rw [hu, updateSeq_none] at h
      exact absurd h (by simp)
    · rw [hu] at h
      have hN := ih s1 sN h
      obtain ⟨sb, -, hmax⟩ := update_eq_some hu
      have h1 : s1.max_ask_bid_diff
          = OrderBook.maxStep s.max_ask_bid_diff (OrderBook.new_diff_of s m) := by
        rw [hmax]
      cases hold : s.max_ask_bid_diff.diff
      · exact eLt_nan _
      · rename_i x
        obtain ⟨y, hy, hxy⟩ := maxStep_val_le s.max_ask_bid_diff
          (OrderBook.new_diff_of s m) x hold
        rw [← h1] at hy
        cases hsN : sN.max_ask_bid_diff.diff
        · rfl
        · rename_i z
          rw [hsN, hy] at hN
          simp only [EFloat.lt, decide_eq_false_iff_not, not_lt] at hN
          simp only [EFloat.lt, decide_eq_false_iff_not, not_lt]
          exact le_trans hxy hN

/-! # Claim C8 -/

/-- **C8.** If the full model (re)fit fails, the exception is absorbed by the
retrain routine (it still produces a state rather than propagating), the
forecast model is exactly the previous model, the retrain threshold grows by
exactly `m = 10`, and the update counter and all ingest-side data are
untouched; on a successful fit the model is replaced by the fitted one and
the update counter is reset to 0. -/
theorem c8_retrain_failure_keeps_model_success_resets_counter {μ : Type}
    (s : EngineState μ) (l : Series) (hne : l ≠ []) (e : String) (m : μ) :
    (∃ s', OrderBook.retrain_model s l (.error e) = some s' ∧
      s'.forecast_model = s.forecast_model ∧
      s'.n_observation_to_retrain_after =
        s.n_observation_to_retrain_after + seasonalityM ∧
      s'.n_model_updates = s.n_model_updates ∧
      s'.bids = s.bids ∧ s'.asks = s.asks ∧ s'.mid_prices = s.mid_prices ∧
      s'.forecast = s.forecast ∧ s'.max_ask_bid_diff = s.max_ask_bid_diff) ∧
    (∃ s', OrderBook.retrain_model s l (.ok m) = some s' ∧
      s'.forecast_model = some m ∧ s'.n_model_updates = 0) := by
  have hlast : l.getLast? = some (l.getLast hne) := List.getLast?_eq_getLast l hne
  refine ⟨⟨{ s with
        n_observation_to_retrain_after :=
          s.n_observation_to_retrain_after + seasonalityM,
        model_update_time := some (l.getLast hne).1,
        retrain_locked := false, pending_train := none },
      ?_, rfl, rfl, rfl, rfl, rfl, rfl, rfl, rfl⟩,
    ⟨{ s with
        forecast_model := some m, n_model_updates := 0,
        model_update_time := some (l.getLast hne).1,
        retrain_locked := false, pending_train := none },
      ?_, rfl, rfl⟩⟩
  · simp [OrderBook.retrain_model, hlast]
  · simp [OrderBook.retrain_model, hlast]

/-- Witness for C8 at a concrete state and training snapshot. -/
theorem c8_witness :
    ∃ s', OrderBook.retrain_model
        (⟨[], [], 0, [], [], ⟨EFloat.nan, EFloat.nan, 0⟩, 5, 21, none, none,
          true, some [(6000000, EFloat.val 3)]⟩ : EngineState Unit)
        [(6000000, EFloat.val 3)] (.error "LinAlgError") = some s' ∧
      s'.forecast_model = none ∧ s'.n_observation_to_retrain_after = 31 := by
  obtain ⟨⟨s', h1, h2, h3, -⟩, -⟩ :=
    c8_retrain_failure_keeps_model_success_resets_counter
      (⟨[], [], 0, [], [], ⟨EFloat.nan, EFloat.nan, 0⟩, 5, 21, none, none,
        true, some [(6000000, EFloat.val 3)]⟩ : EngineState Unit)
      [(6000000, EFloat.val 3)] (by decide) "LinAlgError" ()
  exact ⟨s', h1, h2, h3⟩

/-! # Claim C9 -/

/-- **C9.** In `__format_float_for_print`, the guard `f != np.nan` is true
for every float (including NaN itself, since `nan != nan` is true in IEEE
comparison), so every value — present or missing — takes the
`f"{f:.8f}"` branch; in particular a missing value (NaN) is rendered
`"nan"`, never the string `"not yet available"`. -/
theorem c9_nan_is_rendered_nan_not_missing :
    (∀ f, format_float_for_print f = pyFormatFixed f 8) ∧
    format_float_for_print EFloat.nan = "nan" ∧
    "nan" ≠ "not yet available" := by
  refine ⟨fun f => ?_, rfl, by decide⟩
  cases f <;> rfl

/-! # Claim C4 -/

/-- **C4 (counterexample).** Processing a late update *does* regress
`last_update`: on a state whose `last_update` is 100 s, an `l2update`
dated 50 s succeeds and leaves `last_update = 50 s`. -/
theorem c4_counterexample_late_update_regresses :
    (OrderBook.update trivMOps oneSec plainState
        { time := 50 * oneSec, changes := [] }).map (fun s => s.last_update)
      = some (50 * oneSec) ∧
    50 * oneSec < plainState.last_update := by
  constructor
  · decide
  · decide

/-- **C4 (amended).** `update` assigns the message's time to `last_update`
unconditionally (line 95); a message earlier than the current
`last_update` therefore moves `last_update` backwards to it, rather than
being held back. -/
theorem c4_update_assigns_message_time {μ : Type} (mops : MOps μ) (Δ : ℕ)
    (s s' : EngineState μ) (msg : UpdateMsg)
    (h : OrderBook.update mops Δ s msg = some s') :
    s'.last_update = msg.time := by
  obtain ⟨sb, hds, rfl⟩ := update_eq_some h
  show sb.last_update = msg.time
  rw [(uds_eq_some hds).2.2.2.1, applyChanges_eq]

/-- Witness for C4 at a concrete state and message. -/
theorem c4_witness :
    (OrderBook.update trivMOps oneSec plainState
        { time := 150 * oneSec, changes := [] }).map (fun s => s.last_update)
      = some (150 * oneSec) := by
  cases hu : OrderBook.update trivMOps oneSec plainState
      { time := 150 * oneSec, changes := [] } with
  | none => exact absurd hu (by decide)
  | some s' =>
    rw [Option.map_some']
    rw [c4_update_assigns_message_time trivMOps oneSec plainState s' _ hu]

/-! # Claim C5 -/

/-- **C5 (counterexample).** A change whose side is `"left"` (neither
`"buy"` nor `"sell"`) raises no error: `update` succeeds, and the change
is applied to the asks book (price 7 appears among the asks). -/
theorem c5_counterexample_unknown_side_applied_to_asks :
    (OrderBook.update trivMOps oneSec plainState
        { time := 101 * oneSec, changes := [⟨"left", 7, 2⟩] }).map
        (fun s => (s.bids, s.asks))
      = some ([(10, 1)], [(7, 2), (12, 1)]) := by
  decide

/-- **C5 (amended).** `__get_book` returns the asks book for *every* side
other than `"buy"` (line 321 has no validation), so a change with an
unknown side is applied to the asks book exactly as a `"sell"` would be;
no `ParseError` or any other error is raised. -/
theorem c5_unknown_side_routed_to_asks {μ : Type} (s : EngineState μ)
    (side : String) (h : side ≠ "buy") (p q : ℚ) :
    OrderBook.get_book s side = s.asks ∧
    OrderBook.insert_record s side p q
      = { s with asks := bookUpsert askKeyLt p q s.asks } := by
  unfold OrderBook.insert_record OrderBook.set_book OrderBook.get_book
    OrderBook.book_key_lt
  simp [h]

/-- Witness for C5 with the side `"left"`. -/
theorem c5_witness :
    OrderBook.get_book plainState "left" = plainState.asks ∧
    OrderBook.insert_record plainState "left" 7 2
      = { plainState with asks := bookUpsert askKeyLt 7 2 plainState.asks } :=
  c5_unknown_side_routed_to_asks plainState "left" (by decide) 7 2

/-! # Claim C7 -/

/-- **C7 (counterexample).** After snapshot at 0 s, updates at 13 s and
903 s (1 s sampling), the run succeeds and the forecast table still holds
its row at 0 s, which is older than
`last_update − max_window − sample_interval = 903 s − 900 s − 1 s`:
the forecast table is trimmed with the 6 s forecast interval, not the
sample interval. -/
theorem c7_counterexample_forecast_row_older_than_bound :
    (cexRetention.map fun s =>
        s.forecast.any fun r =>
          decide (r.1 + maxAggregationWindow + oneSec < s.last_update))
      = some true := by
  decide

/-- **C7 (amended).** After every processed update, mid-price samples are
no older than `last_update − max_window − sample_interval`, and forecast
rows are no older than `last_update − max_window − forecast_sample_interval`
(6 s) — the forecast table's bound uses the coarser forecast interval. -/
theorem c7_retention_bounds {μ : Type} (mops : MOps μ) (Δ : ℕ)
    (s s' : EngineState μ) (msg : UpdateMsg)
    (h : OrderBook.update mops Δ s msg = some s') :
    (∀ e ∈ s'.mid_prices, s'.last_update ≤ e.1 + maxAggregationWindow + Δ) ∧
    (∀ r ∈ s'.forecast,
      s'.last_update ≤ r.1 + maxAggregationWindow + forecastSampleInterval) := by
  obtain ⟨sb, hds, rfl⟩ := update_eq_some h
  obtain ⟨s4, hsb, -⟩ := uds_free_shape hds
  subst hsb
  constructor
  · intro e he
    have h1 : s4.last_update ≤ e.1 + maxAggregationWindow + Δ :=
      free_resources_mid_bound Δ s4 e he
    have h2 : (OrderBook.free_resources Δ s4).last_update = s4.last_update :=
      (free_resources_fixed Δ s4).2.2.1
    show (OrderBook.free_resources Δ s4).last_update ≤ _
    omega
  · intro r hr
    have h1 : s4.last_update ≤ r.1 + maxAggregationWindow + forecastSampleInterval :=
      free_resources_forecast_bound Δ s4 r hr
    have h2 : (OrderBook.free_resources Δ s4).last_update = s4.last_update :=
      (free_resources_fixed Δ s4).2.2.1
    show (OrderBook.free_resources Δ s4).last_update ≤ _
    omega

/-- Witness for C7 on a concrete update. -/
theorem c7_witness :
    (OrderBook.update trivMOps oneSec plainState
        { time := 101 * oneSec, changes := [] }).map
      (fun s' => decide (∀ e ∈ s'.mid_prices,
        s'.last_update ≤ e.1 + maxAggregationWindow + oneSec))
      = some true := by
  cases hu : OrderBook.update trivMOps oneSec plainState
      { time := 101 * oneSec, changes := [] } with
  | none => exact absurd hu (by decide)
  | some s' =>
    rw [Option.map_some']
    exact congrArg some (decide_eq_true
      (c7_retention_bounds trivMOps oneSec plainState s' _ hu).1)

/-! # Claim C2 -/

/-- **C2.** At every successful update, the stored maximum spread becomes
`new if new.diff > old.diff or isnan(old.diff) else old` where `new` is the
diff computed from the post-change books at the message time; consequently
the recorded `diff` never strictly decreases at a step, nor across any
further sequence of updates (it is never reset), and when the new spread
ties a non-NaN recorded maximum the earlier observation (with its
timestamp) is kept. -/
theorem c2_max_spread_is_monotone_maximum {μ : Type} (mops : MOps μ) (Δ : ℕ)
    (s s' : EngineState μ) (msg : UpdateMsg)
    (h : OrderBook.update mops Δ s msg = some s') :
    s'.max_ask_bid_diff
      = OrderBook.maxStep s.max_ask_bid_diff (OrderBook.new_diff_of s msg) ∧
    EFloat.lt s'.max_ask_bid_diff.diff s.max_ask_bid_diff.diff = false ∧
    (EFloat.isNaN s.max_ask_bid_diff.diff = false →
      (OrderBook.new_diff_of s msg).diff = s.max_ask_bid_diff.diff →
      s'.max_ask_bid_diff = s.max_ask_bid_diff) ∧
    (∀ msgs sN, updateSeq mops Δ s' msgs = some sN →
      EFloat.lt sN.max_ask_bid_diff.diff s'.max_ask_bid_diff.diff = false) := by
  obtain ⟨sb, hds, rfl⟩ := update_eq_some h
  refine ⟨rfl, maxStep_not_lt _ _, ?_, ?_⟩
  · intro h1 h2
    show OrderBook.maxStep _ _ = _
    exact maxStep_tie _ _ h1 h2
  · intro msgs sN hseq
    exact updateSeq_not_lt mops Δ msgs _ sN hseq

/-- Witness for C2 on a concrete state and update. -/
theorem c2_witness :
    (OrderBook.update trivMOps oneSec plainState
        { time := 101 * oneSec, changes := [] }).map
      (fun s' => EFloat.lt s'.max_ask_bid_diff.diff
        plainState.max_ask_bid_diff.diff)
      = some false := by
  cases hu : OrderBook.update trivMOps oneSec plainState
      { time := 101 * oneSec, changes := [] } with
  | none => exact absurd hu (by decide)
  | some s' =>
    rw [Option.map_some']
    exact congrArg some
      (c2_max_spread_is_monotone_maximum trivMOps oneSec plainState s' _ hu).2.1

/-! # Claim C1 -/

/-- **C1.** In every reachable engine state — any snapshot construction
followed by any sequence of `l2update` messages and background retrain
completions — every price stored in either book has a positive quantity:
`__insert_record` upserts when `quantity > 0` and otherwise deletes the
entry at that price (a no-op when absent), so no zero-quantity entry is
ever stored. -/
theorem c1_stored_quantities_positive {μ : Type} (mops : MOps μ) (Δ : ℕ)
    (s : EngineState μ) (h : Reachable mops Δ s) :
    BookPos s.bids ∧ BookPos s.asks := by
  induction h with
  | init snap t hinit =>
    obtain ⟨s3, d, hds, rfl⟩ := init_eq_some hinit
    show BookPos s3.bids ∧ BookPos s3.asks
    rw [(uds_eq_some hds).2.1, (uds_eq_some hds).2.2.1]
    exact snapState_books_pos μ snap
  | update_step t msg t' hr hupd ih =>
    obtain ⟨sb, hds, rfl⟩ := update_eq_some hupd
    show BookPos sb.bids ∧ BookPos sb.asks
    rw [(uds_eq_some hds).2.1, (uds_eq_some hds).2.2.1, applyChanges_eq]
    exact ⟨applyToBook_pos ih.1, applyToBook_pos ih.2⟩
  | retrain_step t l t' hr hpend hret ih =>
    obtain ⟨hb, ha, -⟩ := retrain_model_books hret
    rw [hb, ha]
    exact ih

/-- Witness for C1 on the state constructed from a concrete snapshot. -/
theorem c1_witness :
    (OrderBook.init trivMOps oneSec cexSnap).map
      (fun s => decide (BookPos s.bids ∧ BookPos s.asks)) = some true := by
  cases hinit : OrderBook.init trivMOps oneSec cexSnap with
  | none => exact absurd hinit (by decide)
  | some s =>
    rw [Option.map_some']
    exact congrArg some (decide_eq_true
      (c1_stored_quantities_positive trivMOps oneSec s
        (Reachable.init cexSnap s hinit)))

/-! # Claim C6 -/

/-- **C6.** After any sequence of snapshot/update messages (and retrain
completions), the mid-price series index is strictly increasing and every
timestamp — the back-filled seed as well as each forward-filled appended
sample — is an exact multiple of the sample interval on the epoch-aligned
grid. -/
theorem c6_mid_series_strictly_increasing_and_aligned {μ : Type}
    (mops : MOps μ) (Δ : ℕ) (hΔ : 0 < Δ) (s : EngineState μ)
    (h : Reachable mops Δ s) :
    SeriesSorted s.mid_prices ∧ SeriesAligned Δ s.mid_prices :=
  ⟨(reachable_series_inv mops Δ hΔ s h).1,
   (reachable_series_inv mops Δ hΔ s h).2.1⟩

/-- Witness for C6 on the state constructed from a concrete snapshot. -/
theorem c6_witness :
    (OrderBook.init trivMOps oneSec cexSnap).map
      (fun s => decide (SeriesSorted s.mid_prices ∧
        SeriesAligned oneSec s.mid_prices)) = some true := by
  cases hinit : OrderBook.init trivMOps oneSec cexSnap with
  | none => exact absurd hinit (by decide)
  | some s =>
    rw [Option.map_some']
    exact congrArg some (decide_eq_true
      (c6_mid_series_strictly_increasing_and_aligned trivMOps oneSec
        (by decide) s (Reachable.init cexSnap s hinit)))

/-! # Claim C3 -/

/-- **C3 (counterexample).** Processing the same `l2update` twice does
*not* always reproduce the state of processing it once: after snapshot at
0 s and an update at 13 s, one application of the (empty) update at 30 s
leaves `_n_model_updates = 3`, while two applications leave it at 4 (the
second pass re-marks a training row and extends the forecast table). -/
theorem c3_counterexample_double_update_differs :
    cexOnce.isSome = true ∧ cexTwice.isSome = true ∧
    cexOnce.map (fun s => s.n_model_updates)
      ≠ cexTwice.map (fun s => s.n_model_updates) := by
  refine ⟨by decide, by decide, by decide⟩

/-- **C3 (amended).** Re-processing the same message is idempotent on the
*market-data* state — the two books, `_last_update`, the mid-price series
(under the §4.3 replace rule) and the maximum spread — provided the books
are sorted, the mid-price series is sorted and grid-aligned, and the
replaced history is nonempty or the message time is on the sample grid.
The forecast/model bookkeeping is *not* idempotent (see the
counterexample). -/
theorem c3_update_idempotent_on_market_data {μ : Type} (mops : MOps μ)
    (Δ : ℕ) (hΔ : 0 < Δ) (s s' s'' : EngineState μ) (msg : UpdateMsg)
    (hbs : BookSorted bidKeyLt s.bids) (has : BookSorted askKeyLt s.asks)
    (hms : SeriesSorted s.mid_prices) (hma : SeriesAligned Δ s.mid_prices)
    (hhyp : histSlice msg.time msg.time s.mid_prices ≠ [] ∨ Δ ∣ msg.time)
    (h1 : OrderBook.update mops Δ s msg = some s')
    (h2 : OrderBook.update mops Δ s' msg = some s'') :
    s''.bids = s'.bids ∧ s''.asks = s'.asks ∧
    s''.last_update = s'.last_update ∧ s''.mid_prices = s'.mid_prices ∧
    s''.max_ask_bid_diff = s'.max_ask_bid_diff := by
  obtain ⟨sa1, sb1, hga1, hds1, rfl⟩ := update_eq_some2 h1
  obtain ⟨sa2, sb2, hga2, hds2, rfl⟩ := update_eq_some2 h2
  have hu1 := uds_eq_some hds1
  have hu2 := uds_eq_some hds2
  have hl1 : sa1.last_update = msg.time := by
    rw [← hga1, applyChanges_eq]
  have hmp1 : sa1.mid_prices = s.mid_prices := by
    rw [← hga1, applyChanges_eq]
  have hb1 : sa1.bids = applyToBook bidKeyLt s.bids
      (msg.changes.filter fun c => decide (c.side = "buy")) := by
    rw [← hga1, applyChanges_eq]
  have ha1 : sa1.asks = applyToBook askKeyLt s.asks
      (msg.changes.filter fun c => !decide (c.side = "buy")) := by
    rw [← hga1, applyChanges_eq]
  have hl2 : sa2.last_update = msg.time := by
    rw [← hga2, applyChanges_eq]
  have hmp2 : sa2.mid_prices = sb1.mid_prices := by
    rw [← hga2, applyChanges_eq]
  have hb2 : sa2.bids = applyToBook bidKeyLt sb1.bids
      (msg.changes.filter fun c => decide (c.side = "buy")) := by
    rw [← hga2, applyChanges_eq]
  have ha2 : sa2.asks = applyToBook askKeyLt sb1.asks
      (msg.changes.filter fun c => !decide (c.side = "buy")) := by
    rw [← hga2, applyChanges_eq]
  have hsa2b : sa2.bids = sa1.bids := by
    rw [hb2, hu1.2.1, hb1]
    exact applyToBook_idem bidKeyLt_irrefl bidKeyLt_conn bidKeyLt_trans
      s.bids hbs _
  have hsa2a : sa2.asks = sa1.asks := by
    rw [ha2, hu1.2.2.1, ha1]
    exact applyToBook_idem askKeyLt_irrefl askKeyLt_conn askKeyLt_trans
      s.asks has _
  have hsa2l : sa2.last_update = sa1.last_update := by
    rw [hl2, hl1]
  have hdq : OrderBook.calc_ask_bid_diff sa2 = OrderBook.calc_ask_bid_diff sa1 :=
    calc_ask_bid_diff_congr sa2 sa1 hsa2b hsa2a hsa2l
  have hm1 := uds_mid_of_shape hds1
  rw [hl1, hmp1] at hm1
  have hm2 := uds_mid_of_shape hds2
  rw [hl2, hmp2, hdq, hm1] at hm2
  have hMw := midSeriesNext_wf Δ msg.time hΔ
    (EFloat.half (EFloat.add
      (OrderBook.calc_ask_bid_diff sa1).highest_bid_price_level
      (OrderBook.calc_ask_bid_diff sa1).lowest_ask_price_level))
    s.mid_prices hms hma
  have hMp := mid_M_props Δ msg.time hΔ
    (EFloat.half (EFloat.add
      (OrderBook.calc_ask_bid_diff sa1).highest_bid_price_level
      (OrderBook.calc_ask_bid_diff sa1).lowest_ask_price_level))
    s.mid_prices hms hma hhyp
  have hble := bound_le_floorTo Δ msg.time maxAggregationWindow hΔ
  have hfl := floorTo_le Δ msg.time
  have hlc := le_ceilTo Δ msg.time hΔ
  have hbceil : msg.time - maxAggregationWindow - Δ ≤ ceilTo Δ msg.time := by
    omega
  obtain ⟨A, hMA⟩ : ∃ A, OrderBook.midSeriesNext Δ msg.time msg.time
      (EFloat.half (EFloat.add
        (OrderBook.calc_ask_bid_diff sa1).highest_bid_price_level
        (OrderBook.calc_ask_bid_diff sa1).lowest_ask_price_level))
      s.mid_prices
      = A ++ [(ceilTo Δ msg.time,
          EFloat.half (EFloat.add
            (OrderBook.calc_ask_bid_diff sa1).highest_bid_price_level
            (OrderBook.calc_ask_bid_diff sa1).lowest_ask_price_level))] :=
    ⟨_, eq_dropLast_concat hMp.1⟩
  have hMdrop : (OrderBook.midSeriesNext Δ msg.time msg.time
      (EFloat.half (EFloat.add
        (OrderBook.calc_ask_bid_diff sa1).highest_bid_price_level
        (OrderBook.calc_ask_bid_diff sa1).lowest_ask_price_level))
      s.mid_prices).dropLast = A := by
    rw [hMA, List.dropLast_concat]
  have hXeq : sliceFrom (msg.time - maxAggregationWindow - Δ)
      (OrderBook.midSeriesNext Δ msg.time msg.time
        (EFloat.half (EFloat.add
          (OrderBook.calc_ask_bid_diff sa1).highest_bid_price_level
          (OrderBook.calc_ask_bid_diff sa1).lowest_ask_price_level))
        s.mid_prices)
      = sliceFrom (msg.time - maxAggregationWindow - Δ) A
        ++ [(ceilTo Δ msg.time,
          EFloat.half (EFloat.add
            (OrderBook.calc_ask_bid_diff sa1).highest_bid_price_level
            (OrderBook.calc_ask_bid_diff sa1).lowest_ask_price_level))] := by
    rw [hMA, sliceFrom_concat hbceil]
  have hXlast : (sliceFrom (msg.time - maxAggregationWindow - Δ)
      (OrderBook.midSeriesNext Δ msg.time msg.time
        (EFloat.half (EFloat.add
          (OrderBook.calc_ask_bid_diff sa1).highest_bid_price_level
          (OrderBook.calc_ask_bid_diff sa1).lowest_ask_price_level))
        s.mid_prices)).getLast?
      = some (ceilTo Δ msg.time,
          EFloat.half (EFloat.add
            (OrderBook.calc_ask_bid_diff sa1).highest_bid_price_level
            (OrderBook.calc_ask_bid_diff sa1).lowest_ask_price_level)) := by
    rw [hXeq]
    exact List.getLast?_concat _
  have hXdrop : (sliceFrom (msg.time - maxAggregationWindow - Δ)
      (OrderBook.midSeriesNext Δ msg.time msg.time
        (EFloat.half (EFloat.add
          (OrderBook.calc_ask_bid_diff sa1).highest_bid_price_level
          (OrderBook.calc_ask_bid_diff sa1).lowest_ask_price_level))
        s.mid_prices)).dropLast
      = sliceFrom (msg.time - maxAggregationWindow - Δ) A := by
    rw [hXeq, List.dropLast_concat]
  have hXsorted : SeriesSorted (sliceFrom (msg.time - maxAggregationWindow - Δ)
      (OrderBook.midSeriesNext Δ msg.time msg.time
        (EFloat.half (EFloat.add
          (OrderBook.calc_ask_bid_diff sa1).highest_bid_price_level
          (OrderBook.calc_ask_bid_diff sa1).lowest_ask_price_level))
        s.mid_prices)) :=
    List.Pairwise.sublist (List.filter_sublist _) hMw.1
  have hXpen : ∀ p, (sliceFrom (msg.time - maxAggregationWindow - Δ)
      (OrderBook.midSeriesNext Δ msg.time msg.time
        (EFloat.half (EFloat.add
          (OrderBook.calc_ask_bid_diff sa1).highest_bid_price_level
          (OrderBook.calc_ask_bid_diff sa1).lowest_ask_price_level))
        s.mid_prices)).dropLast.getLast? = some p
      → p.1 = ceilTo Δ msg.time - Δ := by
    intro p hp
    rw [hXdrop] at hp
    rcases hAg : A.getLast? with - | pA
    · rw [List.getLast?_eq_none_iff.mp hAg] at hp
      simp [sliceFrom] at hp
    · have hpA1 : pA.1 = ceilTo Δ msg.time - Δ := by
        apply hMp.2.1
        rw [hMdrop]
        exact hAg
      have hbpa : msg.time - maxAggregationWindow - Δ ≤ pA.1 := by omega
      obtain ⟨A2, hA2⟩ : ∃ A2, A = A2 ++ [pA] := ⟨_, eq_dropLast_concat hAg⟩
      rw [hA2, sliceFrom_concat hbpa, List.getLast?_concat] at hp
      rw [← Option.some.inj hp]
      exact hpA1
  have hXnt : Δ ∣ msg.time ∨ (sliceFrom (msg.time - maxAggregationWindow - Δ)
      (OrderBook.midSeriesNext Δ msg.time msg.time
        (EFloat.half (EFloat.add
          (OrderBook.calc_ask_bid_diff sa1).highest_bid_price_level
          (OrderBook.calc_ask_bid_diff sa1).lowest_ask_price_level))
        s.mid_prices)).dropLast ≠ [] := by
    by_cases hdv : Δ ∣ msg.time
    · exact Or.inl hdv
    · refine Or.inr ?_
      rcases hAg : A.getLast? with - | pA
      · have hAnil : (OrderBook.midSeriesNext Δ msg.time msg.time
            (EFloat.half (EFloat.add
              (OrderBook.calc_ask_bid_diff sa1).highest_bid_price_level
              (OrderBook.calc_ask_bid_diff sa1).lowest_ask_price_level))
            s.mid_prices).dropLast = [] := by
          rw [hMdrop]
          exact List.getLast?_eq_none_iff.mp hAg
        exact absurd (hMp.2.2 hAnil) hdv
      · have hpA1 : pA.1 = ceilTo Δ msg.time - Δ := by
          apply hMp.2.1
          rw [hMdrop]
          exact hAg
        have hbpa : msg.time - maxAggregationWindow - Δ ≤ pA.1 := by omega
        rw [hXdrop]
        exact sliceFrom_ne_nil hAg hbpa
  have hfix := midSeriesNext_fixed Δ msg.time hΔ
    (EFloat.half (EFloat.add
      (OrderBook.calc_ask_bid_diff sa1).highest_bid_price_level
      (OrderBook.calc_ask_bid_diff sa1).lowest_ask_price_level))
    (sliceFrom (msg.time - maxAggregationWindow - Δ)
      (OrderBook.midSeriesNext Δ msg.time msg.time
        (EFloat.half (EFloat.add
          (OrderBook.calc_ask_bid_diff sa1).highest_bid_price_level
          (OrderBook.calc_ask_bid_diff sa1).lowest_ask_price_level))
        s.mid_prices))
    hXsorted hXlast hXpen hXnt
  rw [hfix, sliceFrom_idem] at hm2
  refine ⟨?_, ?_, ?_, ?_, ?_⟩
  · show sb2.bids = sb1.bids
    rw [hu2.2.1, hsa2b, hu1.2.1]
  · show sb2.asks = sb1.asks
    rw [hu2.2.2.1, hsa2a, hu1.2.2.1]
  · show sb2.last_update = sb1.last_update
    rw [hu2.2.2.2.1, hsa2l, hu1.2.2.2.1]
  · show sb2.mid_prices = sb1.mid_prices
    rw [hm2, hm1]
  · show OrderBook.maxStep
        (OrderBook.maxStep s.max_ask_bid_diff (OrderBook.calc_ask_bid_diff sa1))
        (OrderBook.calc_ask_bid_diff sa2)
      = OrderBook.maxStep s.max_ask_bid_diff (OrderBook.calc_ask_bid_diff sa1)
    rw [hdq]
    exact maxStep_idem _ _

/-- Witness for C3 (amended) on a concrete state, processing the same
message twice. -/
theorem c3_witness :
    ∃ s' s'', OrderBook.update trivMOps oneSec plainState cexU101 = some s' ∧
      OrderBook.update trivMOps oneSec s' cexU101 = some s'' ∧
      s''.bids = s'.bids ∧ s''.asks = s'.asks ∧
      s''.last_update = s'.last_update ∧ s''.mid_prices = s'.mid_prices ∧
      s''.max_ask_bid_diff = s'.max_ask_bid_diff := by
  cases hu : OrderBook.update trivMOps oneSec plainState cexU101 with
  | none => exact absurd hu (by decide)
  | some s' =>
    have hss : (OrderBook.update trivMOps oneSec plainState cexU101).map
        (fun s => (OrderBook.update trivMOps oneSec s cexU101).isSome)
        = some true := by
      decide
    rw [hu, Option.map_some'] at hss
    obtain ⟨s'', hu2⟩ := Option.isSome_iff_exists.mp (Option.some.inj hss)
    obtain ⟨e1, e2, e3, e4, e5⟩ :=
      c3_update_idempotent_on_market_data trivMOps oneSec (by decide)
        plainState s' s'' cexU101 (by decide) (by decide) (by decide)
        (by decide) (by decide) hu hu2
    exact ⟨s', s'', rfl, hu2, e1, e2, e3, e4, e5⟩

/-! # Claim C10 -/

/-- **C10 (counterexample).** `get_stats` is *not* total on reachable
states: construct from a snapshot at 3600 s, update at 3613 s (the first
update seeds the forecast table), then process a very late update at
epoch 0.  The run succeeds, but `get_stats` on the resulting state raises
(`none` here): the mid-price series was re-seeded at 0 s, so the forecast
frame sliced up to 0 s is empty and its unguarded `index[-1]` fails. -/
theorem c10_counterexample_get_stats_fails_after_extreme_late_update :
    (cexLateState.map fun s => (OrderBook.get_stats s).isNone) = some true := by
  decide

/-- **C10 (amended).** In every reachable state the mid-price series does
hold at least one sample (the claim's premise is right), and while the
forecast table is still empty `get_stats` is total; its unguarded
`index[-1]` on the sliced forecast frame can still fail once the table is
nonempty (see the counterexample). -/
theorem c10_mid_series_nonempty_stats_total_before_forecast {μ : Type}
    (mops : MOps μ) (Δ : ℕ) (hΔ : 0 < Δ) (s : EngineState μ)
    (h : Reachable mops Δ s) :
    s.mid_prices ≠ [] ∧
    (s.forecast = [] → (OrderBook.get_stats s).isSome = true) :=
  ⟨(reachable_series_inv mops Δ hΔ s h).2.2,
   fun hf => get_stats_isSome_of s (reachable_series_inv mops Δ hΔ s h).2.2 hf⟩

/-- Witness for C10 on the state constructed from a concrete snapshot. -/
theorem c10_witness :
    (OrderBook.init trivMOps oneSec cexSnap).map
      (fun s => decide (s.mid_prices ≠ [] ∧
        (s.forecast = [] → (OrderBook.get_stats s).isSome = true)))
      = some true := by
  cases hinit : OrderBook.init trivMOps oneSec cexSnap with
  | none => exact absurd hinit (by decide)
  | some s =>
    rw [Option.map_some']
    exact congrArg some (decide_eq_true
      (c10_mid_series_nonempty_stats_total_before_forecast trivMOps oneSec
        (by decide) s (Reachable.init cexSnap s hinit)))

end OB

